import Mathlib

/-!
# The auction chaincode (`auction/auction.go`)

A shallow embedding of the chaincode and of the libraries it is written against:
Go's `unicode/utf8`, `strconv` and `encoding/json`, and the table interface of the
Hyperledger Fabric shim (`shim.ChaincodeStubInterface`).

Conventions.
* A Go `string` or `[]byte` is a list of bytes, each a natural number below 256.
  A `nil` slice and an empty one are both the empty list.
* A Go `int` is a natural number: every `int` of the program is a length, a loop
  counter or an entry of the key-count table.
* A function that may panic returns a `Run`; a function that talks to the ledger
  also returns the stub it leaves behind.
* `fmt.Println` is not modelled, but the evaluation of its arguments is: an
  argument such as `args[1]` panics when the index is out of range.
-/

namespace Auction

/-! ## Strings and bytes -/

/-- A Go `string` or `[]byte`: its bytes, each a natural number below 256. -/
abbrev GoString := List Nat

/-- The Unicode replacement character, `utf8.RuneError`. -/
def RuneError : Nat := 0xFFFD

/-- The largest Unicode code point, `utf8.MaxRune`. -/
def MaxRune : Nat := 0x10FFFF

/-- Go's `utf8.EncodeRune`: the UTF-8 encoding of a rune; a surrogate or a value above
`MaxRune` is encoded as `RuneError`. Shifts and masks are written as division and
remainder. -/
def EncodeRune (r : Nat) : GoString :=
  if r ≤ 0x7F then [r]
  else if r ≤ 0x7FF then [0xC0 + r / 64, 0x80 + r % 64]
  else if MaxRune < r ∨ (0xD800 ≤ r ∧ r ≤ 0xDFFF) then [0xEF, 0xBF, 0xBD]
  else if r ≤ 0xFFFF then [0xE0 + r / 4096, 0x80 + r / 64 % 64, 0x80 + r % 64]
  else [0xF0 + r / 262144, 0x80 + r / 4096 % 64, 0x80 + r / 64 % 64, 0x80 + r % 64]

/-- Whether `b` is a UTF-8 continuation byte, `0x80 .. 0xBF`. -/
def isCont (b : Nat) : Bool := 0x80 ≤ b && b ≤ 0xBF

/-- Go's `utf8.DecodeRune`: the first rune of `p` and its width in bytes. An invalid or
short encoding gives `(RuneError, 1)`, the empty input `(RuneError, 0)`. The accepted
ranges of the second byte are those of the package's `first` and `acceptRanges` tables. -/
def DecodeRune : GoString → Nat × Nat
  | [] => (RuneError, 0)
  | p0 :: rest =>
    if p0 < 0x80 then (p0, 1)
    else if p0 < 0xC2 then (RuneError, 1)
    else if p0 < 0xE0 then
      match rest with
      | b1 :: _ =>
        if isCont b1 then (p0 % 32 * 64 + b1 % 64, 2) else (RuneError, 1)
      | _ => (RuneError, 1)
    else if p0 < 0xF0 then
      match rest with
      | b1 :: b2 :: _ =>
        if (if p0 = 0xE0 then 0xA0 else 0x80) ≤ b1 ∧ b1 ≤ (if p0 = 0xED then 0x9F else 0xBF)
            ∧ isCont b2 then
          (p0 % 16 * 4096 + b1 % 64 * 64 + b2 % 64, 3)
        else (RuneError, 1)
      | _ => (RuneError, 1)
    else if p0 < 0xF5 then
      match rest with
      | b1 :: b2 :: b3 :: _ =>
        if (if p0 = 0xF0 then 0x90 else 0x80) ≤ b1 ∧ b1 ≤ (if p0 = 0xF4 then 0x8F else 0xBF)
            ∧ isCont b2 ∧ isCont b3 then
          (p0 % 8 * 262144 + b1 % 64 * 4096 + b2 % 64 * 64 + b3 % 64, 4)
        else (RuneError, 1)
      | _ => (RuneError, 1)
    else (RuneError, 1)

/-- The bytes of a source-code string literal (its UTF-8 encoding). -/
def utf8 (s : String) : GoString := s.data.flatMap fun c => EncodeRune c.toNat

/-- Go's `utf8.Valid`: every rune of `p` decodes without error. The fuel is a bound on
the number of runes. -/
def validLoop : Nat → GoString → Bool
  | _, [] => true
  | 0, _ :: _ => false
  | fuel + 1, b :: rest =>
    if b < 0x80 then validLoop fuel rest
    else
      let d := DecodeRune (b :: rest)
      if d.2 = 1 then false else validLoop fuel ((b :: rest).drop d.2)

/-- Go's `utf8.ValidString`. -/
def ValidString (s : GoString) : Bool := validLoop s.length s

/-- The string `json.Unmarshal` reads back from what `json.Marshal` wrote for `s`: `s`
with every byte that is not part of a valid UTF-8 encoding replaced by U+FFFD. The
fuel is a bound on the number of runes. -/
def coerceLoop : Nat → GoString → GoString
  | _, [] => []
  | 0, _ :: _ => []
  | fuel + 1, b :: rest =>
    if b < 0x80 then b :: coerceLoop fuel rest
    else if (DecodeRune (b :: rest)).2 = 1 then [0xEF, 0xBF, 0xBD] ++ coerceLoop fuel rest
    else
      (b :: rest).take (DecodeRune (b :: rest)).2
        ++ coerceLoop fuel ((b :: rest).drop (DecodeRune (b :: rest)).2)

/-- The string read back from the JSON text of `s`. -/
def coerce (s : GoString) : GoString := coerceLoop s.length s

/-- Go's `strconv.Itoa` on a non-negative `int`. -/
def Itoa (n : Nat) : GoString := (Nat.toDigits 10 n).map Char.toNat

/-- Whether `c` is an ASCII decimal digit. -/
def isDigit (c : Nat) : Bool := 0x30 ≤ c && c ≤ 0x39

/-- The value of a sequence of decimal digits. -/
def digitsVal (ds : GoString) : Nat := ds.foldl (fun acc d => acc * 10 + (d - 0x30)) 0

/-! ## Errors and panics -/

/-- The Go `error` values the program and its libraries produce. -/
inductive GoError where
  /-- An `errors.New(msg)`. -/
  | new (msg : GoString)
  /-- A `fmt.Errorf(format, err)`: the format string and its one argument. -/
  | errorf (format : GoString) (arg : GoError)
  /-- A `*json.SyntaxError` of `json.Unmarshal`. -/
  | jsonSyntax
  /-- A `*json.UnmarshalTypeError`: the JSON value does not fit the Go type. -/
  | jsonType (value : GoString)
  /-- A `*strconv.NumError` of `strconv.Atoi`. -/
  | numError (input : GoString)
  /-- The shim's `ErrTableNotFound`. -/
  | tableNotFound
  /-- The shim's failure of `CreateTable`: the reason. -/
  | createTable (reason : GoString)
  /-- The shim's rejection of a row that does not fit the table's columns. -/
  | rowShape (table : GoString)
  deriving DecidableEq, Repr

/-- A run-time panic. -/
inductive Panic where
  /-- An index expression `a[i]` with `i` outside `0 .. len(a) - 1`. -/
  | indexOutOfRange (index len : Nat)
  /-- A failed type assertion `x.(string)`. -/
  | typeAssertion
  /-- An explicit `panic(err)`. -/
  | error (err : GoError)
  deriving DecidableEq, Repr

/-- The outcome of running a Go function: it returns, or it panics. -/
inductive Run (α : Type) where
  | done (a : α)
  | panic (p : Panic)
  deriving DecidableEq, Repr

/-- The index expression `a[i]`. -/
def index (a : List GoString) (i : Nat) : Run GoString :=
  match a.get? i with
  | some x => .done x
  | none => .panic (.indexOutOfRange i a.length)

/-! ## `encoding/json`: writing -/

/-- The table `hex` of `encoding/json`: the lower-case hexadecimal digits. -/
def hex (n : Nat) : Nat := if n < 10 then 0x30 + n else 0x57 + n

/-- The loop of `encodeState.string` with HTML escaping on, as `json.Marshal` runs it:
the JSON text of the bytes of a string, without the surrounding quotes. An ASCII
byte is copied unless it is a control character, a quote, a backslash or one of
`<`, `>`, `&`; an invalid byte becomes the escape of U+FFFD (the package documents
that strings are "coerced to valid UTF-8, replacing invalid bytes with the Unicode
replacement rune"); U+2028 and U+2029 are escaped; any other rune is copied. The fuel
is a bound on the number of runes. -/
def encodeLoop : Nat → GoString → GoString
  | _, [] => []
  | 0, _ :: _ => []
  | fuel + 1, b :: rest =>
    if b < 0x80 then
      (if 0x20 ≤ b ∧ b ≠ 0x5C ∧ b ≠ 0x22 ∧ b ≠ 0x3C ∧ b ≠ 0x3E ∧ b ≠ 0x26 then [b]
       else if b = 0x5C ∨ b = 0x22 then [0x5C, b]
       else if b = 0x0A then [0x5C, 0x6E]
       else if b = 0x0D then [0x5C, 0x72]
       else if b = 0x09 then [0x5C, 0x74]
       else [0x5C, 0x75, 0x30, 0x30, hex (b / 16), hex (b % 16)])
        ++ encodeLoop fuel rest
    else
      let d := DecodeRune (b :: rest)
      if d.1 = RuneError ∧ d.2 = 1 then
        [0x5C, 0x75, 0x66, 0x66, 0x66, 0x64] ++ encodeLoop fuel rest
      else if d.1 = 0x2028 ∨ d.1 = 0x2029 then
        [0x5C, 0x75, 0x32, 0x30, 0x32, hex (d.1 % 16)]
          ++ encodeLoop fuel ((b :: rest).drop d.2)
      else (b :: rest).take d.2 ++ encodeLoop fuel ((b :: rest).drop d.2)

/-- The JSON string literal `json.Marshal` writes for a Go string. -/
def encodeString (s : GoString) : GoString := 0x22 :: encodeLoop s.length s ++ [0x22]

/-! ## `encoding/json`: reading -/

/-- The parts of a JSON number literal. -/
structure NumLit where
  neg : Bool
  int : GoString
  frac : GoString
  expNeg : Bool
  exp : GoString
  deriving DecidableEq, Repr

/-- A JSON value as `json.Unmarshal` reads it. A number keeps its literal. -/
inductive JVal where
  | null
  | bool (b : Bool)
  | number (lit : NumLit)
  | string (s : GoString)
  | array (elems : List JVal)
  | object (members : List (GoString × JVal))
  deriving Repr

/-- The scanner's `isSpace`. -/
def isSpace (c : Nat) : Bool := c = 0x20 || c = 0x09 || c = 0x0D || c = 0x0A

/-- Drops leading white space. -/
def skipSpace : GoString → GoString
  | [] => []
  | c :: rest => if isSpace c then skipSpace rest else c :: rest

/-- The value of a hexadecimal digit, if `c` is one. -/
def hexVal (c : Nat) : Option Nat :=
  if 0x30 ≤ c ∧ c ≤ 0x39 then some (c - 0x30)
  else if 0x61 ≤ c ∧ c ≤ 0x66 then some (c - 0x57)
  else if 0x41 ≤ c ∧ c ≤ 0x46 then some (c - 0x37)
  else none

/-- The decoder's `getu4`: the value of a `\uXXXX` escape at the head of `s`, or `none`
(Go's `-1`) when `s` does not start with one. -/
def getu4 : GoString → Option Nat
  | 0x5C :: 0x75 :: a :: b :: c :: d :: _ =>
    match hexVal a, hexVal b, hexVal c, hexVal d with
    | some a, some b, some c, some d => some (((a * 16 + b) * 16 + c) * 16 + d)
    | _, _, _, _ => none
  | _ => none

/-- Go's `utf16.IsSurrogate`. -/
def isSurrogate (r : Nat) : Bool := 0xD800 ≤ r && r < 0xE000

/-- Go's `utf16.DecodeRune`: the code point of a surrogate pair, `RuneError` for a pair
that is not one. -/
def utf16DecodeRune (r1 r2 : Nat) : Nat :=
  if 0xD800 ≤ r1 ∧ r1 < 0xDC00 ∧ 0xDC00 ≤ r2 ∧ r2 < 0xE000 then
    (r1 - 0xD800) * 1024 + (r2 - 0xDC00) + 0x10000
  else RuneError

/-- Puts `pre` before the bytes a scan returned. -/
def prepend (pre : GoString) : Option (GoString × GoString) → Option (GoString × GoString)
  | some (out, rest) => some (pre ++ out, rest)
  | none => none

/-- The body of a JSON string literal, after its opening quote: the bytes it stands
for and the input after its closing quote. The scanner's checks (no raw control
character, only the nine escapes, four hexadecimal digits after `\u`) and the work of
`unquoteBytes` (escapes resolved, an unpaired surrogate or an invalid byte replaced by
U+FFFD) in one pass. The fuel is a bound on the number of steps. -/
def unquoteLoop : Nat → GoString → Option (GoString × GoString)
  | 0, _ => none
  | _ + 1, [] => none
  | fuel + 1, c :: rest =>
    if c = 0x22 then some ([], rest)
    else if c = 0x5C then
      match rest with
      | [] => none
      | e :: rest2 =>
        if e = 0x22 ∨ e = 0x5C ∨ e = 0x2F then prepend [e] (unquoteLoop fuel rest2)
        else if e = 0x62 then prepend [0x08] (unquoteLoop fuel rest2)
        else if e = 0x66 then prepend [0x0C] (unquoteLoop fuel rest2)
        else if e = 0x6E then prepend [0x0A] (unquoteLoop fuel rest2)
        else if e = 0x72 then prepend [0x0D] (unquoteLoop fuel rest2)
        else if e = 0x74 then prepend [0x09] (unquoteLoop fuel rest2)
        else if e = 0x75 then
          match getu4 (c :: rest) with
          | none => none
          | some rr =>
            if isSurrogate rr then
              match getu4 (rest2.drop 4) with
              | some rr1 =>
                if utf16DecodeRune rr rr1 ≠ RuneError then
                  prepend (EncodeRune (utf16DecodeRune rr rr1))
                    (unquoteLoop fuel (rest2.drop 10))
                else prepend (EncodeRune RuneError) (unquoteLoop fuel (rest2.drop 4))
              | none => prepend (EncodeRune RuneError) (unquoteLoop fuel (rest2.drop 4))
            else prepend (EncodeRune rr) (unquoteLoop fuel (rest2.drop 4))
        else none
    else if c < 0x20 then none
    else if c < 0x80 then prepend [c] (unquoteLoop fuel rest)
    else
      let d := DecodeRune (c :: rest)
      prepend (EncodeRune d.1) (unquoteLoop fuel ((c :: rest).drop d.2))

/-- A JSON string literal from its opening quote on. -/
def parseString : GoString → Option (GoString × GoString)
  | 0x22 :: rest => unquoteLoop (rest.length + 1) rest
  | _ => none

/-- Splits off the leading decimal digits. -/
def spanDigits : GoString → GoString × GoString
  | [] => ([], [])
  | c :: rest =>
    if isDigit c then ((spanDigits rest).1.cons c, (spanDigits rest).2) else ([], c :: rest)

/-- The exponent part of a number, if there is one: `e` or `E`, a sign, digits. -/
def scanExp : GoString → Option (Bool × GoString × GoString)
  | c :: rest =>
    if c = 0x65 ∨ c = 0x45 then
      let r := match rest with
        | 0x2B :: r => (false, r)
        | 0x2D :: r => (true, r)
        | r => (false, r)
      let ds := spanDigits r.2
      if ds.1 = [] then none else some (r.1, ds.1, ds.2)
    else some (false, [], c :: rest)
  | [] => some (false, [], [])

/-- The fraction part of a number, if there is one: a dot and digits. -/
def scanFrac : GoString → Option (GoString × GoString)
  | 0x2E :: rest =>
    let ds := spanDigits rest
    if ds.1 = [] then none else some ds
  | s => some ([], s)

/-- The scanner's number grammar: an optional minus sign, `0` or a digit `1..9` and
more digits, an optional fraction, an optional exponent. -/
def scanNumber (s : GoString) : Option (NumLit × GoString) :=
  let sg : Bool × GoString := match s with
    | 0x2D :: r => (true, r)
    | r => (false, r)
  let ip : Option (GoString × GoString) := match sg.2 with
    | 0x30 :: r => some ([0x30], r)
    | c :: r => if isDigit c then some (c :: (spanDigits r).1, (spanDigits r).2) else none
    | [] => none
  match ip with
  | none => none
  | some (i, r1) =>
    match scanFrac r1 with
    | none => none
    | some (f, r2) =>
      match scanExp r2 with
      | none => none
      | some (en, e, r3) => some (⟨sg.1, i, f, en, e⟩, r3)

/-- Whether `strconv.ParseFloat(lit, 64)` reports a range error: the number, rounded to
the nearest `float64`, is infinite, that is, its magnitude is at least
`2^1024 - 2^970`. An underflow to zero is no error. -/
def NumLit.overflows (n : NumLit) : Bool :=
  let m := digitsVal (n.int ++ n.frac)
  let e := digitsVal n.exp
  let limit := 2 ^ 1024 - 2 ^ 970
  if m = 0 then false
  else if n.expNeg then m ≥ limit * 10 ^ (e + n.frac.length)
  else if n.frac.length ≤ e then m * 10 ^ (e - n.frac.length) ≥ limit
  else m ≥ limit * 10 ^ (n.frac.length - e)

/-- Whether the input starts with the given bytes; the rest of the input if so. -/
def stripPrefix : GoString → GoString → Option GoString
  | [], s => some s
  | _ :: _, [] => none
  | p :: ps, c :: s => if p = c then stripPrefix ps s else none

mutual
/-- One JSON value at the head of the input (no leading white space) and the input
after it. The fuel bounds the depth of the calls; every call consumes a byte. -/
def parseValue : Nat → GoString → Option (JVal × GoString)
  | 0, _ => none
  | _ + 1, [] => none
  | fuel + 1, c :: rest =>
    if c = 0x7B then
      match skipSpace rest with
      | 0x7D :: r => some (.object [], r)
      | r =>
        match parseMembers fuel r with
        | some (ms, r2) => some (.object ms, r2)
        | none => none
    else if c = 0x5B then
      match skipSpace rest with
      | 0x5D :: r => some (.array [], r)
      | r =>
        match parseElements fuel r with
        | some (vs, r2) => some (.array vs, r2)
        | none => none
    else if c = 0x22 then
      match parseString (c :: rest) with
      | some (s, r) => some (.string s, r)
      | none => none
    else if c = 0x74 then (stripPrefix [0x72, 0x75, 0x65] rest).map fun r => (.bool true, r)
    else if c = 0x66 then
      (stripPrefix [0x61, 0x6C, 0x73, 0x65] rest).map fun r => (.bool false, r)
    else if c = 0x6E then (stripPrefix [0x75, 0x6C, 0x6C] rest).map fun r => (.null, r)
    else
      match scanNumber (c :: rest) with
      | some (n, r) => some (.number n, r)
      | none => none
/-- The elements of an array after the first `[`, up to and including its `]`. -/
def parseElements : Nat → GoString → Option (List JVal × GoString)
  | 0, _ => none
  | fuel + 1, s =>
    match parseValue fuel s with
    | none => none
    | some (v, r) =>
      match skipSpace r with
      | 0x2C :: r2 =>
        match parseElements fuel (skipSpace r2) with
        | some (vs, r3) => some (v :: vs, r3)
        | none => none
      | 0x5D :: r2 => some ([v], r2)
      | _ => none
/-- The members of an object after the first `{`, up to and including its `}`. -/
def parseMembers : Nat → GoString → Option (List (GoString × JVal) × GoString)
  | 0, _ => none
  | fuel + 1, s =>
    match parseString s with
    | none => none
    | some (k, r) =>
      match skipSpace r with
      | 0x3A :: r1 =>
        match parseValue fuel (skipSpace r1) with
        | none => none
        | some (v, r2) =>
          match skipSpace r2 with
          | 0x2C :: r3 =>
            match parseMembers fuel (skipSpace r3) with
            | some (ms, r4) => some ((k, v) :: ms, r4)
            | none => none
          | 0x7D :: r3 => some ([(k, v)], r3)
          | _ => none
      | _ => none
end

/-- The decoder's `checkValid` and scan: the one JSON value the whole input consists
of, white space around it allowed; `none` is a syntax error. The fuel is enough for
every input (`parseJSON_complete`). -/
def parseJSON (data : GoString) : Option JVal :=
  match parseValue (data.length + 1) (skipSpace data) with
  | some (v, r) => if skipSpace r = [] then some v else none
  | none => none

mutual
/-- Whether decoding the value into an `interface{}` meets a number that does not
fit a `float64`. -/
def JVal.overflows : JVal → Bool
  | .number n => n.overflows
  | .array vs => overflowsList vs
  | .object ms => overflowsMembers ms
  | _ => false
/-- `JVal.overflows` for one of the elements of an array. -/
def overflowsList : List JVal → Bool
  | [] => false
  | v :: vs => v.overflows || overflowsList vs
/-- `JVal.overflows` for one of the members of an object. -/
def overflowsMembers : List (GoString × JVal) → Bool
  | [] => false
  | (_, v) :: ms => v.overflows || overflowsMembers ms
end

/-- The fields of the Go map a JSON object is decoded into: a later member with the
same key replaces an earlier one. A `nil` map has no field. -/
def mapIndex (dat : Option (List (GoString × JVal))) (key : GoString) : Option JVal :=
  match dat with
  | none => none
  | some ms => ms.reverse.lookup key

/-- What `json.Unmarshal(data, &dat)` does for `var dat map[string]interface{}`: the map
(`none` is the `nil` map the JSON `null` leaves), or the error. Only an object or `null`
fits a map, and a number in it is converted with `strconv.ParseFloat`. -/
def UnmarshalMap (data : GoString) : Except GoError (Option (List (GoString × JVal))) :=
  match parseJSON data with
  | none => .error .jsonSyntax
  | some .null => .ok none
  | some (.object ms) =>
    if overflowsMembers ms then .error (.jsonType (utf8 "number")) else .ok (some ms)
  | some (.array _) => .error (.jsonType (utf8 "array"))
  | some (.string _) => .error (.jsonType (utf8 "string"))
  | some (.number _) => .error (.jsonType (utf8 "number"))
  | some (.bool _) => .error (.jsonType (utf8 "bool"))

/-! ## The user record -/

/-- The Go struct `UserObject`. -/
structure UserObject where
  UserID : GoString
  RecType : GoString
  Name : GoString
  UserType : GoString
  Address : GoString
  Phone : GoString
  Email : GoString
  Bank : GoString
  AccountNo : GoString
  RoutingNo : GoString
  deriving DecidableEq, Repr

/-- The zero value `UserObject{}`. -/
def UserObject.zero : UserObject := ⟨[], [], [], [], [], [], [], [], [], []⟩

/-- The names of the fields of `UserObject`, in the order of the struct; they are the
keys of its JSON object, the struct having no tags. -/
def userFields : List GoString :=
  [utf8 "UserID", utf8 "RecType", utf8 "Name", utf8 "UserType", utf8 "Address",
   utf8 "Phone", utf8 "Email", utf8 "Bank", utf8 "AccountNo", utf8 "RoutingNo"]

/-- The values of the fields of a user, in the order of the struct. -/
def UserObject.values (u : UserObject) : List GoString :=
  [u.UserID, u.RecType, u.Name, u.UserType, u.Address, u.Phone, u.Email, u.Bank,
   u.AccountNo, u.RoutingNo]

/-- Assigns the field with the given position in the struct. -/
def UserObject.set (u : UserObject) (i : Nat) (v : GoString) : UserObject :=
  match i with
  | 0 => { u with UserID := v }
  | 1 => { u with RecType := v }
  | 2 => { u with Name := v }
  | 3 => { u with UserType := v }
  | 4 => { u with Address := v }
  | 5 => { u with Phone := v }
  | 6 => { u with Email := v }
  | 7 => { u with Bank := v }
  | 8 => { u with AccountNo := v }
  | 9 => { u with RoutingNo := v }
  | _ => u

/-- The members of the JSON object of a struct: `"name":value`, separated by commas. -/
def marshalMembers : List (GoString × GoString) → GoString
  | [] => []
  | [(k, v)] => encodeString k ++ [0x3A] ++ encodeString v
  | (k, v) :: ms => encodeString k ++ [0x3A] ++ encodeString v ++ [0x2C] ++ marshalMembers ms

/-- What `json.Marshal(user)` writes for a `UserObject`: the object of its ten fields,
in the order of the struct. It has no error case: every field is a string. -/
def Marshal (user : UserObject) : GoString :=
  [0x7B] ++ marshalMembers (userFields.zip user.values) ++ [0x7D]

/-- The byte `b & caseMask` of the decoder: `b` with the bit `0x20` cleared, which
maps an ASCII letter to its upper case. -/
def upper (b : Nat) : Nat := b / 64 * 64 + b % 32

/-- The decoder's `equalFoldRight`, the case-insensitive comparison of a field name `s`
(ASCII letters) with an object key `t`: letters match in either case, and the Kelvin
sign (U+212A) and the long s (U+017F) in `t` match `k` and `s`. -/
def equalFoldRight : GoString → GoString → Bool
  | [], t => t = []
  | _ :: _, [] => false
  | sb :: s, tb :: t =>
    if tb < 0x80 then
      if sb ≠ tb then
        if 0x41 ≤ upper sb ∧ upper sb ≤ 0x5A then
          if upper sb ≠ upper tb then false else equalFoldRight s t
        else false
      else equalFoldRight s t
    else
      if (sb = 0x73 ∨ sb = 0x53) ∧ (DecodeRune (tb :: t)).1 = 0x17F then
        equalFoldRight s ((tb :: t).drop (DecodeRune (tb :: t)).2)
      else if (sb = 0x6B ∨ sb = 0x4B) ∧ (DecodeRune (tb :: t)).1 = 0x212A then
        equalFoldRight s ((tb :: t).drop (DecodeRune (tb :: t)).2)
      else false

/-- The loop of the decoder that picks the field for an object key: the field whose
name is the key, or else the first whose name matches it in any case. -/
def findFieldLoop (key : GoString) : List (Nat × GoString) → Option Nat → Option Nat
  | [], f => f
  | (i, name) :: rest, f =>
    if name = key then some i
    else if f = none ∧ equalFoldRight name key then findFieldLoop key rest (some i)
    else findFieldLoop key rest f

/-- The position of the field of `UserObject` an object key is stored in, if any. -/
def findField (key : GoString) : Option Nat :=
  findFieldLoop key ((List.range userFields.length).zip userFields) none

/-- Stores the members of a JSON object in a user, from left to right. A string is
assigned to its field, `null` leaves the field as it is, a key with no field is
skipped, any other value is a type error; the first error is the one returned. -/
def storeMembers : List (GoString × JVal) → UserObject × Option GoError →
    UserObject × Option GoError
  | [], st => st
  | (k, v) :: ms, (u, err) =>
    match findField k with
    | none => storeMembers ms (u, err)
    | some i =>
      match v with
      | .string x => storeMembers ms (u.set i x, err)
      | .null => storeMembers ms (u, err)
      | .bool _ => storeMembers ms (u, err.orElse fun _ => some (.jsonType (utf8 "bool")))
      | .number _ => storeMembers ms (u, err.orElse fun _ => some (.jsonType (utf8 "number")))
      | .array _ => storeMembers ms (u, err.orElse fun _ => some (.jsonType (utf8 "array")))
      | .object _ => storeMembers ms (u, err.orElse fun _ => some (.jsonType (utf8 "object")))

/-- What `json.Unmarshal(data, &user)` does for a `UserObject`: the user afterwards and
the error. Only an object or `null` fits a struct. -/
def UnmarshalUser (data : GoString) (user : UserObject) : UserObject × Option GoError :=
  match parseJSON data with
  | none => (user, some .jsonSyntax)
  | some .null => (user, none)
  | some (.object ms) => storeMembers ms (user, none)
  | some (.array _) => (user, some (.jsonType (utf8 "array")))
  | some (.string _) => (user, some (.jsonType (utf8 "string")))
  | some (.number _) => (user, some (.jsonType (utf8 "number")))
  | some (.bool _) => (user, some (.jsonType (utf8 "bool")))

/-- Go's `strconv.Atoi` for a 64-bit `int`: an optional sign and decimal digits, the
value within the range of `int`; otherwise a `*NumError`. -/
def Atoi (s : GoString) : Except GoError Int :=
  let sg : Bool × GoString := match s with
    | 0x2B :: r => (false, r)
    | 0x2D :: r => (true, r)
    | r => (false, r)
  if sg.2 = [] ∨ ¬ sg.2.all isDigit then .error (.numError s)
  else if sg.1 then
    if 2 ^ 63 < digitsVal sg.2 then .error (.numError s) else .ok (-(digitsVal sg.2 : Int))
  else
    if 2 ^ 63 ≤ digitsVal sg.2 then .error (.numError s) else .ok (digitsVal sg.2 : Int)

/-! ## The table interface of the shim

The chaincode reaches the ledger through `shim.ChaincodeStubInterface`. The stub below
follows the table functions of the Fabric shim: a table is a list of column
definitions stored under its name, a row is stored under the key string built from
the table name and the key columns, and every call is recorded in `calls`. -/

/-- The column types of the shim, `ColumnDefinition_Type`. -/
inductive ColumnType where
  | STRING | INT32 | INT64 | UINT32 | UINT64 | BYTES | BOOL
  deriving DecidableEq, Repr

/-- The shim's `ColumnDefinition`. -/
structure ColumnDefinition where
  Name : GoString
  Type_ : ColumnType
  Key : Bool
  deriving DecidableEq, Repr

/-- The shim's `Column`, with the two kinds of value the chaincode builds. -/
inductive Column where
  | String_ (s : GoString)
  | Bytes (b : GoString)
  deriving DecidableEq, Repr

/-- The shim's `Row`. -/
structure Row where
  Columns : List Column
  deriving DecidableEq, Repr

/-- The getter `GetBytes` of a column: the bytes of a bytes column, `nil` otherwise. -/
def Column.GetBytes : Column → GoString
  | .Bytes b => b
  | .String_ _ => []

/-- A call of a table function of the stub, with its arguments. -/
inductive Call where
  | CreateTable (name : GoString) (columnDefinitions : List ColumnDefinition)
  | InsertRow (tableName : GoString) (row : Row)
  | ReplaceRow (tableName : GoString) (row : Row)
  | GetRow (tableName : GoString) (key : List Column)
  | DeleteRow (tableName : GoString) (key : List Column)
  deriving DecidableEq, Repr

/-- The stub: the tables and rows of the ledger, and the calls made so far. -/
structure Stub where
  tables : List (GoString × List ColumnDefinition)
  rows : List (GoString × Row)
  calls : List Call
  deriving DecidableEq, Repr

/-- The stub of an empty ledger. -/
def Stub.empty : Stub := ⟨[], [], []⟩

/-- The text of a key column inside a key string. -/
def Column.keyText : Column → GoString
  | .String_ s => s
  | .Bytes b => b

/-- The shim's `validateTableName`: a table name has one character or more. -/
def validateTableName (name : GoString) : Option GoError :=
  if name.length = 0 then
    some (.new (utf8 "Inavlid table name. Table name must be 1 or more characters."))
  else none

/-- The shim's `getTableNameKey`: the length of the table name, then the name. -/
def getTableNameKey (name : GoString) : Except GoError GoString :=
  match validateTableName name with
  | some err => .error err
  | none => .ok (Itoa name.length ++ name)

/-- The shim's `buildKeyString`: the key of the table name, then the length and text
of every key column. It fails on a table name that `validateTableName` rejects. -/
def buildKeyString (tableName : GoString) (keys : List Column) : Except GoError GoString :=
  match getTableNameKey tableName with
  | .error err => .error err
  | .ok tableNameKey =>
    .ok (tableNameKey ++ keys.flatMap fun k => Itoa k.keyText.length ++ k.keyText)

/-- Whether a column holds a value of the type its definition asks for. -/
def Column.fits : Column → ColumnDefinition → Bool
  | .String_ _, d => d.Type_ = .STRING
  | .Bytes _, d => d.Type_ = .BYTES

/-- The loop of the shim's `getKeyAndVerifyRow`: the key columns of a row, or `none`
when a column has the wrong type. -/
def keyOfRow : List Column → List ColumnDefinition → Option (List Column)
  | c :: cs, d :: ds =>
    if c.fits d then
      match keyOfRow cs ds with
      | some ks => some (if d.Key then c :: ks else ks)
      | none => none
    else none
  | _, _ => some []

/-- The shim's `getKeyAndVerifyRow`: a row must have as many columns as the table, each
of the type of its definition. -/
def getKeyAndVerifyRow (tableName : GoString) (defs : List ColumnDefinition) (row : Row) :
    Except GoError (List Column) :=
  if row.Columns.length ≠ defs.length then .error (.rowShape tableName)
  else
    match keyOfRow row.Columns defs with
    | some ks => .ok ks
    | none => .error (.rowShape tableName)

/-- Stores a row under a key string, in place of any row there. -/
def putRow (k : GoString) (r : Row) (rows : List (GoString × Row)) : List (GoString × Row) :=
  (k, r) :: rows.filter fun e => e.1 ≠ k

/-- Whether a list of column definitions names a column twice. -/
def hasDuplicateName : List ColumnDefinition → Bool
  | [] => false
  | d :: ds => ds.any (fun e => e.Name = d.Name) || hasDuplicateName ds

/-- The shim's `getTable`: the column definitions stored under a table name. -/
def Stub.getTable (stub : Stub) (tableName : GoString) :
    Except GoError (List ColumnDefinition) :=
  match getTableNameKey tableName with
  | .error err => .error err
  | .ok _ =>
    match stub.tables.lookup tableName with
    | none => .error .tableNotFound
    | some defs => .ok defs

/-- The shim's `CreateTable`: fails when the table exists, when the table name is not
valid, when there is no column, when a column has no name or the name of another, or
when no column is a key. -/
def Stub.CreateTable (stub : Stub) (name : GoString)
    (columnDefinitions : List ColumnDefinition) : Option GoError × Stub :=
  let stub1 := { stub with calls := stub.calls ++ [.CreateTable name columnDefinitions] }
  match stub.getTable name with
  | .ok _ => (some (.createTable (utf8 "table already exists")), stub1)
  | .error err =>
    if err ≠ .tableNotFound then
      (some (.errorf (utf8 "CreateTable operation failed. %s") err), stub1)
    else if columnDefinitions = [] then
      (some (.createTable (utf8 "tables must contain at least one column")), stub1)
    else if columnDefinitions.any (fun d => d.Name = []) then
      (some (.createTable (utf8 "name must be 1 or more characters")), stub1)
    else if hasDuplicateName columnDefinitions then
      (some (.createTable (utf8 "duplicate column name")), stub1)
    else if ¬ columnDefinitions.any (fun d => d.Key) then
      (some (.createTable (utf8 "one or more columns must be a key")), stub1)
    else (none, { stub1 with tables := (name, columnDefinitions) :: stub.tables })

/-- The shim's `insertRowInternal`, behind `InsertRow` (`update = false`) and
`ReplaceRow` (`update = true`): `(true, nil)` when the row is written, `(false, nil)`
when an insert finds the key taken or a replace finds it free, `(false, err)` when the
table is missing or the row does not fit it. The shim documents `InsertRow` so: "true
and no error if the row is successfully inserted, false and no error if a row already
exists for the given key, false and a TableNotFoundError if the specified table name
does not exist". -/
def Stub.insertRowInternal (stub : Stub) (tableName : GoString) (row : Row) (update : Bool) :
    Bool × Option GoError × Stub :=
  match stub.getTable tableName with
  | .error err => (false, some err, stub)
  | .ok defs =>
    match getKeyAndVerifyRow tableName defs row with
    | .error e => (false, some e, stub)
    | .ok key =>
      match buildKeyString tableName key with
      | .error err => (false, some err, stub)
      | .ok keyString =>
        let present := (stub.rows.lookup keyString).isSome
        if (present && !update) || (!present && update) then (false, none, stub)
        else (true, none, { stub with rows := putRow keyString row stub.rows })

/-- The shim's `InsertRow`. -/
def Stub.InsertRow (stub : Stub) (tableName : GoString) (row : Row) :
    Bool × Option GoError × Stub :=
  Stub.insertRowInternal { stub with calls := stub.calls ++ [.InsertRow tableName row] }
    tableName row false

/-- The shim's `ReplaceRow`. -/
def Stub.ReplaceRow (stub : Stub) (tableName : GoString) (row : Row) :
    Bool × Option GoError × Stub :=
  Stub.insertRowInternal { stub with calls := stub.calls ++ [.ReplaceRow tableName row] }
    tableName row true

/-- The shim's `GetRow`: the row stored under the key, or the empty row; the empty row
and the error of `buildKeyString` when that fails. -/
def Stub.GetRow (stub : Stub) (tableName : GoString) (key : List Column) :
    Row × Option GoError × Stub :=
  let stub1 := { stub with calls := stub.calls ++ [.GetRow tableName key] }
  match buildKeyString tableName key with
  | .error err => (⟨[]⟩, some err, stub1)
  | .ok keyString =>
    match stub.rows.lookup keyString with
    | some row => (row, none, stub1)
    | none => (⟨[]⟩, none, stub1)

/-- The shim's `DeleteRow`: the error of `buildKeyString` when that fails; otherwise it
deletes the state under the key string, which is no error when there is none. -/
def Stub.DeleteRow (stub : Stub) (tableName : GoString) (key : List Column) :
    Option GoError × Stub :=
  let stub1 := { stub with calls := stub.calls ++ [.DeleteRow tableName key] }
  match buildKeyString tableName key with
  | .error err => (some err, stub1)
  | .ok keyString => (none, { stub1 with rows := stub.rows.filter fun e => e.1 ≠ keyString })

/-! ## The chaincode -/

/-- The Go variable `recType`: the valid record types. -/
def recType : List GoString :=
  [utf8 "ARTINV", utf8 "USER", utf8 "BID", utf8 "AUCREQ", utf8 "POSTTRAN", utf8 "OPENAUC",
   utf8 "CLAUC", utf8 "XFER", utf8 "VERIFY"]

/-- The Go variable `aucTables`: the tables `Init` creates. -/
def aucTables : List GoString :=
  [utf8 "UserTable", utf8 "UserCatTable", utf8 "ItemTable", utf8 "ItemCatTable",
   utf8 "ItemHistoryTable", utf8 "AuctionTable", utf8 "AucInitTable", utf8 "AucOpenTable",
   utf8 "BidTable", utf8 "TransTable"]

/-- The map literal `TableMap` of `GetNumberOfKeys`. -/
def TableMap : List (GoString × Nat) :=
  [(utf8 "UserTable", 1), (utf8 "ItemTable", 1), (utf8 "UserCatTable", 3),
   (utf8 "ItemCatTable", 3), (utf8 "AuctionTable", 1), (utf8 "AucInitTable", 2),
   (utf8 "AucOpenTable", 2), (utf8 "TransTable", 2), (utf8 "BidTable", 2),
   (utf8 "ItemHistoryTable", 4)]

/-- The Go function `GetNumberOfKeys`: `TableMap[tname]`, which is the zero value `0`
for a name that is not a key of the map. -/
def GetNumberOfKeys (tname : GoString) : Nat :=
  match TableMap.lookup tname with
  | some n => n
  | none => 0

/-- The Go function `ChkReqType`: whether some argument is a valid record type. -/
def ChkReqType (args : List GoString) : Bool :=
  args.any fun rt => recType.any fun val => val = rt

/-- The Go function `CreateUserObject`: ten arguments, the first an integer. A list
has ten elements exactly when `len(args) != 10` is false. -/
def CreateUserObject (args : List GoString) : UserObject × Option GoError :=
  match args with
  | [a0, a1, a2, a3, a4, a5, a6, a7, a8, a9] =>
    match Atoi a0 with
    | .error _ => (.zero, some (.new (utf8
        "CreateUserObject() : User ID should be an integer")))
    | .ok _ => (⟨a0, a1, a2, a3, a4, a5, a6, a7, a8, a9⟩, none)
  | _ =>
    (.zero, some (.new (utf8
      "CreateUserObject() : Incorrect number of arguments. Expecting 10 ")))

/-- The Go function `UserToJson`. -/
def UserToJson (user : UserObject) : GoString × Option GoError :=
  match (Except.ok (Marshal user) : Except GoError GoString) with
  | .error err => ([], some err)
  | .ok userjson => (userjson, none)

/-- The Go function `JsonToUser`. -/
def JsonToUser (bytes : GoString) : UserObject × Option GoError :=
  UnmarshalUser bytes .zero

/-- The loop of `InitLedger`: a string key column `keyName<i>` for `i` from the given
start, `n` times. -/
def keyColumnDefs : Nat → Nat → List ColumnDefinition → List ColumnDefinition
  | 0, _, colDefForTbl => colDefForTbl
  | n + 1, i, colDefForTbl =>
    keyColumnDefs n (i + 1) (colDefForTbl ++ [⟨utf8 "keyName" ++ Itoa i, .STRING, true⟩])

/-- The Go function `InitLedger`. -/
def InitLedger (stub : Stub) (tableName : GoString) : Option GoError × Stub :=
  let nKeys := GetNumberOfKeys tableName
  if nKeys < 1 then
    (some (.new (utf8 "Auction_Application: Failed creating Table " ++ tableName)), stub)
  else
    let colDefForTbl := keyColumnDefs nKeys 0 []
    let colDefForTbl := colDefForTbl ++ [⟨utf8 "Details", .BYTES, false⟩]
    match stub.CreateTable tableName colDefForTbl with
    | (some _, stub1) =>
      (some (.new (utf8 "Auction_Application: Failed creating Table " ++ tableName)), stub1)
    | (none, stub1) => (none, stub1)

/-- The loop `for i := 0; i < n; i++` that appends a string column for `key[i]`: `n`
more rounds from index `i` on. It panics at the first index past the end of `key`. -/
def columnsLoop (key : List GoString) : Nat → Nat → List Column → Run (List Column)
  | 0, _, columns => .done columns
  | n + 1, i, columns =>
    match index key i with
    | .panic p => .panic p
    | .done k => columnsLoop key n (i + 1) (columns ++ [.String_ k])

/-- The Go function `UpdateLedger`. -/
def UpdateLedger (stub : Stub) (tableName : GoString) (key : List GoString) (args : GoString) :
    Run (Option GoError) × Stub :=
  let nKeys := GetNumberOfKeys tableName
  match columnsLoop key nKeys 0 [] with
  | .panic p => (.panic p, stub)
  | .done columns =>
    let currRow : Row := ⟨columns ++ [.Bytes args]⟩
    match stub.InsertRow tableName currRow with
    | (_, some err, stub1) =>
      (.done (some (.errorf (utf8 "UpdateLedger: InsertRow into " ++ tableName
        ++ utf8 " Table operation failed. %s") err)), stub1)
    | (false, none, stub1) =>
      match index key 0 with
      | .panic p => (.panic p, stub1)
      | .done k0 =>
        (.done (some (.new (utf8 "UpdateLedger: InsertRow into " ++ tableName
          ++ utf8 " Table failed. Row with given key " ++ k0 ++ utf8 " already exists"))),
          stub1)
    | (true, none, stub1) => (.done none, stub1)

/-- The Go function `DeleteFromLedger`. -/
def DeleteFromLedger (stub : Stub) (tableName : GoString) (keys : List GoString) :
    Run (Option GoError) × Stub :=
  let nCol := keys.length
  if nCol < 1 then
    (.done (some (.new (utf8 "DeleteFromLedger failed. Must include at least key values"))),
      stub)
  else
    match columnsLoop keys nCol 0 [] with
    | .panic p => (.panic p, stub)
    | .done columns =>
      match stub.DeleteRow tableName columns with
      | (some err, stub1) =>
        (.done (some (.errorf (utf8 "DeleteFromLedger operation failed. %s") err)), stub1)
      | (none, stub1) => (.done none, stub1)

/-- The Go function `ReplaceRowFromLedger`. -/
def ReplaceRowFromLedger (stub : Stub) (tableName : GoString) (keys : List GoString)
    (data : GoString) : Run (Option GoError) × Stub :=
  let nKeys := GetNumberOfKeys tableName
  match columnsLoop keys nKeys 0 [] with
  | .panic p => (.panic p, stub)
  | .done columns =>
    let row : Row := ⟨columns ++ [.Bytes data]⟩
    match stub.ReplaceRow tableName row with
    | (_, some err, stub1) =>
      (.done (some (.errorf (utf8 "ReplaceLedgerEntry: Replace Row into " ++ tableName
        ++ utf8 " Table operation failed. %s") err)), stub1)
    | (false, none, stub1) =>
      match index keys 0 with
      | .panic p => (.panic p, stub1)
      | .done k0 =>
        (.done (some (.new (utf8 "ReplaceLedgerEntry: Replace Row into " ++ tableName
          ++ utf8 " Table failed. Row with given key " ++ k0 ++ utf8 " already exists"))),
          stub1)
    | (true, none, stub1) => (.done none, stub1)

/-- The Go function `ProcessQueryResult`. A failed `json.Unmarshal` is a `panic(err)`;
`dat["RecTYpe"].(string)` panics unless the map has a string under that key. -/
def ProcessQueryResult (_stub : Stub) (bytes : GoString) (_args : List GoString) :
    Run (Option GoError) :=
  match UnmarshalMap bytes with
  | .error err => .panic (.error err)
  | .ok dat =>
    match mapIndex dat (utf8 "RecTYpe") with
    | some (.string recType) =>
      if recType = utf8 "USER" then
        match JsonToUser bytes with
        | (_, some err) => .done (some err)
        | (_, none) => .done none
      else .done none
    | _ => .panic .typeAssertion

/-- The Go function `QueryFromLedger`. -/
def QueryFromLedger (stub : Stub) (tableName : GoString) (args : List GoString) :
    Run (GoString × Option GoError) × Stub :=
  let nKeys := GetNumberOfKeys tableName
  match columnsLoop args nKeys 0 [] with
  | .panic p => (.panic p, stub)
  | .done columns =>
    match stub.GetRow tableName columns with
    | (row, _, stub1) =>
      if row.Columns.length = 0 then
        match index args 0 with
        | .panic p => (.panic p, stub1)
        | .done a0 =>
          (.done ([], some (.new (utf8 "\x7b\"Error\":\"Failed retrieving data " ++ a0
            ++ utf8 ". \"\x7d"))), stub1)
      else
        match row.Columns.get? nKeys with
        | none => (.panic (.indexOutOfRange nKeys row.Columns.length), stub1)
        | some col =>
          let dataBytes := col.GetBytes
          match ProcessQueryResult stub1 dataBytes args with
          | .panic p => (.panic p, stub1)
          | .done (some _) =>
            match index args 1 with
            | .panic p => (.panic p, stub1)
            | .done _ =>
              match index args 0 with
              | .panic p => (.panic p, stub1)
              | .done a0 =>
                (.done ([], some (.new (utf8
                  "\x7b\"QueryLedger() Error\":\" Cannot create Object for key " ++ a0
                  ++ utf8 "\"\x7d"))), stub1)
          | .done none => (.done (dataBytes, none), stub1)

/-- The type of the functions `Invoke` and `Query` dispatch to. -/
abbrev Handler := Stub → GoString → List GoString → Run (GoString × Option GoError) × Stub

/-- The Go function `PostUser`. -/
def PostUser : Handler := fun stub _function args =>
  match CreateUserObject args with
  | (_, some err) => (.done ([], some err), stub)
  | (user, none) =>
    match UserToJson user with
    | (_, some _) =>
      match index args 1 with
      | .panic p => (.panic p, stub)
      | .done a1 =>
        (.done ([], some (.new (utf8
          "PostUser(): Failed Cannot create object buffer for write : " ++ a1))), stub)
    | (userbyte, none) =>
      match index args 0 with
      | .panic p => (.panic p, stub)
      | .done a0 =>
        match UpdateLedger stub (utf8 "UserTable") [a0] userbyte with
        | (.panic p, stub1) => (.panic p, stub1)
        | (.done (some err), stub1) => (.done ([], some err), stub1)
        | (.done none, stub1) =>
          match index args 3 with
          | .panic p => (.panic p, stub1)
          | .done a3 =>
            match UpdateLedger stub1 (utf8 "UserCatTable") [utf8 "2017", a3, a0] userbyte with
            | (.panic p, stub2) => (.panic p, stub2)
            | (.done (some err), stub2) => (.done ([], some err), stub2)
            | (.done none, stub2) => (.done (userbyte, none), stub2)

/-- The Go function `GetUser`. -/
def GetUser : Handler := fun stub _function args =>
  match QueryFromLedger stub (utf8 "UserTable") args with
  | (.panic p, stub1) => (.panic p, stub1)
  | (.done (_, some _), stub1) =>
    match index args 0 with
    | .panic p => (.panic p, stub1)
    | .done a0 =>
      (.done ([], some (.new (utf8 "\x7b\"Error\":\"Failed to get  Object Data for " ++ a0
        ++ utf8 "\"\x7d"))), stub1)
  | (.done (databytes, none), stub1) =>
    if databytes = [] then
      match index args 0 with
      | .panic p => (.panic p, stub1)
      | .done a0 =>
        (.done ([], some (.new (utf8
          "\x7b\"Error\":\"Incomplete information about the key for " ++ a0
          ++ utf8 "\"\x7d"))), stub1)
    else (.done (databytes, none), stub1)

/-- The Go function `InvokeFunction`: the handler of a function name, `nil` if none. -/
def InvokeFunction (fname : GoString) : Option Handler :=
  if fname = utf8 "PostUser" then some PostUser else none

/-- The Go function `QueryFunction`: the handler of a function name, `nil` if none. -/
def QueryFunction (fname : GoString) : Option Handler :=
  if fname = utf8 "GetUser" then some GetUser else none

/-- The Go method `SimpleChaincode.Invoke`. -/
def Invoke (stub : Stub) (function : GoString) (args : List GoString) :
    Run (GoString × Option GoError) × Stub :=
  if ChkReqType args = true then
    match InvokeFunction function with
    | some invokeFunction => invokeFunction stub function args
    | none => (.done ([], none), stub)
  else
    match index args 0 with
    | .panic p => (.panic p, stub)
    | .done a0 =>
      (.done ([], some (.new (utf8 "Invoke() : Invalid recType : " ++ a0))), stub)

/-- The Go method `SimpleChaincode.Query`. -/
def Query (stub : Stub) (function : GoString) (args : List GoString) :
    Run (GoString × Option GoError) × Stub :=
  match index args 0 with
  | .panic p => (.panic p, stub)
  | .done _ =>
    if args.length < 1 then
      (.done ([], some (.new (utf8
        "Query() : Expecting Transation type and Key value for query"))), stub)
    else
      match QueryFunction function with
      | some queryFunction =>
        match queryFunction stub function args with
        | (.panic p, stub1) => (.panic p, stub1)
        | (.done (_, some _), stub1) =>
          match index args 0 with
          | .panic p => (.panic p, stub1)
          | .done a0 =>
            (.done ([], some (.new (utf8 "Query() : Object not found : " ++ a0))), stub1)
        | (.done (result, none), stub1) => (.done (result, none), stub1)
      | none =>
        (.done ([], some (.new (utf8 "Query() : Invalid function call : " ++ function))),
          stub)

/-! ## What the decoder reads back -/

/-- What it means that a scan of `s` with result `x` and rest `r` does not depend on
the fuel: it consumed a byte, and every fuel not below the number of bytes consumed
gives the same result. -/
def Enough {α : Type} (parse : Nat → GoString → Option (α × GoString)) (s : GoString)
    (x : α) (r : GoString) : Prop :=
  r.length < s.length ∧ ∀ f, s.length - r.length ≤ f → parse f s = some (x, r)

/-- The scan of a value that is no object and no array, which uses no fuel. -/
def parseScalar (c : Nat) (rest : GoString) : Option (JVal × GoString) :=
  if c = 0x22 then (parseString (c :: rest)).map fun p => (.string p.1, p.2)
  else if c = 0x74 then (stripPrefix [0x72, 0x75, 0x65] rest).map fun r => (.bool true, r)
  else if c = 0x66 then
    (stripPrefix [0x61, 0x6C, 0x73, 0x65] rest).map fun r => (.bool false, r)
  else if c = 0x6E then (stripPrefix [0x75, 0x6C, 0x6C] rest).map fun r => (.null, r)
  else (scanNumber (c :: rest)).map fun p => (.number p.1, p.2)

/-- The JSON value read back for a member the encoder wrote. -/
def readBack (p : GoString × GoString) : GoString × JVal := (coerce p.1, .string (coerce p.2))

/-- The user `json.Unmarshal` reads back from the JSON text of `u`. -/
def UserObject.coerced (u : UserObject) : UserObject :=
  ⟨coerce u.UserID, coerce u.RecType, coerce u.Name, coerce u.UserType, coerce u.Address,
   coerce u.Phone, coerce u.Email, coerce u.Bank, coerce u.AccountNo, coerce u.RoutingNo⟩

/-- The arguments of a `PostUser` call: a user with the id `100`. -/
def ashleyArgs : List GoString :=
  [utf8 "100", utf8 "USER", utf8 "Ashley Hart", utf8 "TRD", utf8 "Morrisville, NC",
   utf8 "9198063535", utf8 "ashley@itpeople.com", utf8 "SUNTRUST", utf8 "00017102345",
   utf8 "0234678"]

/-- The user `CreateUserObject` makes of `ashleyArgs`. -/
def ashley : UserObject := (CreateUserObject ashleyArgs).1

/-- A user whose name is the single byte `0xFF`, which is not valid UTF-8. -/
def badUser : UserObject := { ashley with Name := [0xFF] }

/-! ## Example ledgers -/

/-- The ledger with the ten tables: the empty ledger after `InitLedger` has created
every table of `aucTables`, as `Init` makes it do. -/
def initStub : Stub := aucTables.foldl (fun stub aucTable => (InitLedger stub aucTable).2) .empty

/-- The column definitions `InitLedger` passes to `CreateTable` for a table name. -/
def tableColumns (tableName : GoString) : List ColumnDefinition :=
  keyColumnDefs (GetNumberOfKeys tableName) 0 [] ++ [⟨utf8 "Details", .BYTES, false⟩]

/-- Every table of the ledger has the columns `InitLedger` gives it. `InitLedger` is
the only caller of `CreateTable`, so this holds of every ledger the chaincode built. -/
def Stub.Sound (stub : Stub) : Prop :=
  ∀ tableName defs, stub.tables.lookup tableName = some defs → defs = tableColumns tableName

/-- The row `UpdateLedger` and `ReplaceRowFromLedger` build from a full key tuple and
a value: a string column for every key, then the bytes column. -/
def rowOf (K : List GoString) (V : GoString) : Row := ⟨K.map .String_ ++ [.Bytes V]⟩

/-- The key string `buildKeyString` returns for a table name it accepts. -/
def keyString (tableName : GoString) (keys : List Column) : GoString :=
  Itoa tableName.length ++ tableName
    ++ keys.flatMap fun k => Itoa k.keyText.length ++ k.keyText

/-- The key string the shim stores the row of a key tuple under. -/
def keyOf (T : GoString) (K : List GoString) : GoString := keyString T (K.map .String_)

/-- The stub after a `GetRow` call for the row of a key tuple. -/
def afterGetRow (stub : Stub) (T : GoString) (K : List GoString) : Stub :=
  { stub with calls := stub.calls ++ [.GetRow T (K.map .String_)] }

/-- A record the type dispatcher lets through: an object whose `RecTYpe` is `BID`. -/
def bidRecord : GoString := utf8 "\x7b\"RecTYpe\":\"BID\"\x7d"

/-- The ledger `initStub` after `bidRecord` was stored in `UserTable` under the key `1`. -/
def bidStub : Stub := (UpdateLedger initStub (utf8 "UserTable") [utf8 "1"] bidRecord).2

/-- The ledger `initStub` after `PostUser` has stored the user of `ashleyArgs`. -/
def postedStub : Stub := (PostUser initStub (utf8 "PostUser") ashleyArgs).2

/-- The key tuple of the row of that user in `UserCatTable`. -/
def ashleyCatKey : List GoString := [utf8 "2017", utf8 "TRD", utf8 "100"]

/-! ## The schema registry -/

theorem aucTables_keys : ∀ t ∈ aucTables, 1 ≤ GetNumberOfKeys t ∧ GetNumberOfKeys t ≤ 4 := by
  decide

theorem TableMap_keys : ∀ p ∈ TableMap, p.1 ∈ aucTables := by decide

theorem GetNumberOfKeys_of_not_mem (name : GoString) (h : name ∉ aucTables) :
    GetNumberOfKeys name = 0 := by
  have hl : TableMap.lookup name = none := by
    rw [List.lookup_eq_none_iff]
    intro p hp
    have hm := TableMap_keys p hp
    simp only [bne_iff_ne, ne_eq]
    intro e
    exact h (e ▸ hm)
  simp [GetNumberOfKeys, hl]

theorem ne_nil_of_keys (T : GoString) (h : 1 ≤ GetNumberOfKeys T) : T ≠ [] := by
  rintro rfl
  exact absurd h (by decide)

theorem ne_nil_of_mem (T : GoString) (h : T ∈ aucTables) : T ≠ [] :=
  ne_nil_of_keys T (aucTables_keys T h).1

theorem buildKeyString_ok (T : GoString) (keys : List Column) (h : T ≠ []) :
    buildKeyString T keys = .ok (keyString T keys) := by
  cases T with
  | nil => exact absurd rfl h
  | cons c cs => rfl

theorem buildKeyString_nil (keys : List Column) :
    buildKeyString [] keys = .error (.new (utf8
      "Inavlid table name. Table name must be 1 or more characters.")) := rfl

theorem getTable_some (stub : Stub) (T : GoString) (defs : List ColumnDefinition)
    (h : T ≠ []) (hl : stub.tables.lookup T = some defs) : stub.getTable T = .ok defs := by
  cases T with
  | nil => exact absurd rfl h
  | cons c cs => simp [Stub.getTable, getTableNameKey, validateTableName, hl]

theorem getTable_none (stub : Stub) (T : GoString) (hl : stub.tables.lookup T = none) :
    ∃ e, stub.getTable T = .error e := by
  cases T with
  | nil => exact ⟨_, rfl⟩
  | cons c cs => exact ⟨.tableNotFound, by simp [Stub.getTable, getTableNameKey, validateTableName, hl]⟩

theorem getTable_ok (stub : Stub) (T : GoString) (defs : List ColumnDefinition)
    (h : stub.getTable T = .ok defs) : T ≠ [] ∧ stub.tables.lookup T = some defs := by
  cases T with
  | nil => simp [Stub.getTable, getTableNameKey, validateTableName] at h
  | cons c cs =>
    refine ⟨List.cons_ne_nil _ _, ?_⟩
    cases hl : stub.tables.lookup (c :: cs) with
    | none => simp [Stub.getTable, getTableNameKey, validateTableName, hl] at h
    | some d => simpa [Stub.getTable, getTableNameKey, validateTableName, hl] using h

/-- C5, as amended: `GetNumberOfKeys` has no failure result. It returns the ordinary
integer `0` for every name that is not one of the ten registered table names, and for
no other name. -/
theorem GetNumberOfKeys_eq_zero_iff (name : GoString) :
    GetNumberOfKeys name = 0 ↔ name ∉ aucTables := by
  constructor
  · intro h hm
    have := (aucTables_keys name hm).1
    omega
  · exact GetNumberOfKeys_of_not_mem name

/-- C5, counterexample: for the unregistered name `NoSuchTable` the result is the
integer `0`, and a caller uses it as an arity: `QueryFromLedger` asks the ledger for
the row with zero key columns. -/
theorem GetNumberOfKeys_unknown_counterexample :
    utf8 "NoSuchTable" ∉ aucTables ∧ GetNumberOfKeys (utf8 "NoSuchTable") = 0 ∧
    (QueryFromLedger .empty (utf8 "NoSuchTable") [utf8 "k"]).2.calls
      = [Call.GetRow (utf8 "NoSuchTable") []] := by
  decide

/-! ## Creating a table -/

theorem keyColumnDefs_eq (n i : Nat) (acc : List ColumnDefinition) :
    keyColumnDefs n i acc
      = acc ++ (List.range n).map fun j => ⟨utf8 "keyName" ++ Itoa (i + j), .STRING, true⟩ := by
  induction n generalizing i acc with
  | zero => simp [keyColumnDefs]
  | succ n ih =>
    rw [keyColumnDefs, ih, List.range_succ_eq_map]
    simp [List.map_map, Function.comp_def, Nat.add_assoc, Nat.add_comm 1]

theorem CreateTable_calls (stub : Stub) (name : GoString) (defs : List ColumnDefinition) :
    (stub.CreateTable name defs).2.calls = stub.calls ++ [Call.CreateTable name defs] := by
  unfold Stub.CreateTable
  cases stub.getTable name with
  | ok d => rfl
  | error e =>
    simp only []
    split_ifs <;> rfl

theorem InitLedger_calls (stub : Stub) (name : GoString) (h : 1 ≤ GetNumberOfKeys name) :
    (InitLedger stub name).2.calls
      = stub.calls ++ [Call.CreateTable name (tableColumns name)] := by
  have hc := CreateTable_calls stub name (tableColumns name)
  unfold InitLedger
  simp only [show ¬ GetNumberOfKeys name < 1 by omega, if_false]
  unfold tableColumns at hc ⊢
  revert hc
  cases stub.CreateTable name
      (keyColumnDefs (GetNumberOfKeys name) 0 [] ++ [⟨utf8 "Details", .BYTES, false⟩]) with
  | mk e s1 => cases e <;> simp

/-- C6: every entry of `aucTables` has an arity in `1..4`; for a name of arity `n >= 1`,
`InitLedger` issues one `CreateTable` call with `n + 1` column definitions, the first
`n` being the string key columns `keyName0 .. keyName(n-1)` in that order and the last
the non-key bytes column `Details`; for an unregistered name it returns its error and
leaves the stub as it was, so no call is issued. -/
theorem InitLedger_CreateTable_shape (stub : Stub) (name : GoString) :
    (∀ t ∈ aucTables, 1 ≤ GetNumberOfKeys t ∧ GetNumberOfKeys t ≤ 4) ∧
    (1 ≤ GetNumberOfKeys name →
      ∃ defs : List ColumnDefinition,
        (InitLedger stub name).2.calls = stub.calls ++ [Call.CreateTable name defs] ∧
        defs.length = GetNumberOfKeys name + 1 ∧
        (∀ i, i < GetNumberOfKeys name →
          defs.get? i = some ⟨utf8 "keyName" ++ Itoa i, .STRING, true⟩) ∧
        defs.get? (GetNumberOfKeys name) = some ⟨utf8 "Details", .BYTES, false⟩) ∧
    (name ∉ aucTables →
      InitLedger stub name =
        (some (.new (utf8 "Auction_Application: Failed creating Table " ++ name)), stub)) := by
  refine ⟨aucTables_keys, fun h => ⟨tableColumns name, InitLedger_calls stub name h, ?_, ?_, ?_⟩,
    fun h => ?_⟩
  · simp [tableColumns, keyColumnDefs_eq]
  · intro i hi
    simp [tableColumns, keyColumnDefs_eq, List.getElem?_append, hi]
  · simp [tableColumns, keyColumnDefs_eq, List.getElem?_append]
  · simp [InitLedger, GetNumberOfKeys_of_not_mem name h]

/-- C6 at the table `UserCatTable` of arity 3, on the empty ledger. -/
theorem InitLedger_CreateTable_shape_witness :
    ∃ defs : List ColumnDefinition,
      (InitLedger .empty (utf8 "UserCatTable")).2.calls
        = Stub.empty.calls ++ [Call.CreateTable (utf8 "UserCatTable") defs] ∧
      defs.length = GetNumberOfKeys (utf8 "UserCatTable") + 1 ∧
      (∀ i, i < GetNumberOfKeys (utf8 "UserCatTable") →
        defs.get? i = some ⟨utf8 "keyName" ++ Itoa i, .STRING, true⟩) ∧
      defs.get? (GetNumberOfKeys (utf8 "UserCatTable")) = some ⟨utf8 "Details", .BYTES, false⟩ :=
  (InitLedger_CreateTable_shape .empty (utf8 "UserCatTable")).2.1 (by decide)

/-! ## The record-type gate of `Invoke` -/

/-- C10, the failing input: on the empty argument list `ChkReqType` is false and
`Invoke`, for every function name and ledger, panics on the `args[0]` of its error
message instead of returning the `Invalid recType` error. -/
theorem Invoke_empty_args_panics (stub : Stub) (function : GoString) :
    ChkReqType [] = false ∧
    Invoke stub function [] = (.panic (.indexOutOfRange 0 0), stub) := by
  constructor
  · rfl
  · rfl

/-- On a non-empty argument list with no valid record type, `Invoke` returns the
`Invalid recType` error and leaves the stub as it was. -/
theorem Invoke_invalid_recType (stub : Stub) (function a : GoString) (args : List GoString)
    (h : ChkReqType (a :: args) = false) :
    Invoke stub function (a :: args)
      = (.done ([], some (.new (utf8 "Invoke() : Invalid recType : " ++ a))), stub) := by
  simp [Invoke, h, index]

/-! ## Key columns and key arity -/

theorem columnsLoop_eq (key : List GoString) (n i : Nat) (cols : List Column)
    (hi : i ≤ key.length) :
    columnsLoop key n i cols
      = if i + n ≤ key.length then .done (cols ++ ((key.drop i).take n).map Column.String_)
        else .panic (.indexOutOfRange key.length key.length) := by
  induction n generalizing i cols with
  | zero => simp [columnsLoop, hi]
  | succ n ih =>
    rw [columnsLoop]
    by_cases hlt : i < key.length
    · have hidx : index key i = .done key[i] := by
        simp [index, List.get?_eq_getElem?, List.getElem?_eq_getElem hlt]
      rw [hidx]
      simp only []
      rw [ih (i + 1) _ (by omega)]
      have hd : key.drop i = key[i] :: key.drop (i + 1) := List.drop_eq_getElem_cons hlt
      by_cases hle : i + 1 + n ≤ key.length
      · have hle2 : i + (n + 1) ≤ key.length := by omega
        rw [if_pos hle, if_pos hle2, hd, List.take_succ_cons]
        simp
      · have hle2 : ¬ i + (n + 1) ≤ key.length := by omega
        simp [hle, hle2]
    · have hieq : i = key.length := by omega
      have hidx : index key i = .panic (.indexOutOfRange i key.length) := by
        simp [index, List.get?_eq_getElem?, hieq]
      rw [hidx]
      have hle2 : ¬ i + (n + 1) ≤ key.length := by omega
      simp [hle2, hieq]

theorem columnsLoop_short (key : List GoString) (n : Nat) (h : key.length < n) :
    columnsLoop key n 0 [] = .panic (.indexOutOfRange key.length key.length) := by
  rw [columnsLoop_eq key n 0 [] (by omega)]
  simp [show ¬ n ≤ key.length by omega]

theorem columnsLoop_take (key : List GoString) (n : Nat) (h : n ≤ key.length) :
    columnsLoop key n 0 [] = .done ((key.take n).map Column.String_) := by
  rw [columnsLoop_eq key n 0 [] (by omega)]
  simp [h]

theorem index_take_zero (key : List GoString) (n : Nat) (h : 1 ≤ n) :
    index (key.take n) 0 = index key 0 := by
  cases key with
  | nil => simp [index]
  | cons k ks =>
    cases n with
    | zero => omega
    | succ n => simp [index]

theorem GetRow_stub (stub : Stub) (T : GoString) (key : List Column) :
    (stub.GetRow T key).2.2 = { stub with calls := stub.calls ++ [.GetRow T key] } := by
  unfold Stub.GetRow
  cases buildKeyString T key with
  | error e => rfl
  | ok k =>
    simp only []
    cases stub.rows.lookup k <;> rfl

theorem QueryFromLedger_stub (stub : Stub) (T : GoString) (K : List GoString)
    (h : GetNumberOfKeys T ≤ K.length) :
    (QueryFromLedger stub T K).2
      = { stub with calls := stub.calls
            ++ [.GetRow T ((K.take (GetNumberOfKeys T)).map .String_)] } := by
  have hg := GetRow_stub stub T ((K.take (GetNumberOfKeys T)).map .String_)
  unfold QueryFromLedger
  simp only [columnsLoop_take K _ h]
  revert hg
  rcases stub.GetRow T ((K.take (GetNumberOfKeys T)).map .String_) with ⟨row, e, stub1⟩
  intro hg
  simp only at hg
  subst hg
  simp only []
  split
  · split <;> rfl
  · split
    · rfl
    · split
      · rfl
      · split
        · rfl
        · split <;> rfl
      · rfl

/-- C2, as amended: no key-arity check is made. For a registered table `T` with
`n = GetNumberOfKeys(T)`: on a key list shorter than `n`, `UpdateLedger`,
`ReplaceRowFromLedger` and `QueryFromLedger` return no error but panic on the index
`len(K)`, before any call to the ledger, which they leave unchanged; on a key list
longer than `n`, `UpdateLedger` and `ReplaceRowFromLedger` do exactly what they do on
the first `n` elements of `K`, and `QueryFromLedger` asks the ledger for the row of
the first `n` elements and nothing else. -/
theorem key_arity_not_enforced (stub : Stub) (T : GoString) (K : List GoString)
    (V : GoString) (hT : T ∈ aucTables) :
    (K.length < GetNumberOfKeys T →
      UpdateLedger stub T K V = (.panic (.indexOutOfRange K.length K.length), stub) ∧
      ReplaceRowFromLedger stub T K V = (.panic (.indexOutOfRange K.length K.length), stub) ∧
      QueryFromLedger stub T K = (.panic (.indexOutOfRange K.length K.length), stub)) ∧
    (GetNumberOfKeys T < K.length →
      UpdateLedger stub T K V = UpdateLedger stub T (K.take (GetNumberOfKeys T)) V ∧
      ReplaceRowFromLedger stub T K V
        = ReplaceRowFromLedger stub T (K.take (GetNumberOfKeys T)) V ∧
      (QueryFromLedger stub T K).2
        = { stub with calls := stub.calls
              ++ [.GetRow T ((K.take (GetNumberOfKeys T)).map .String_)] }) := by
  have h1 := (aucTables_keys T hT).1
  constructor
  · intro h
    simp [UpdateLedger, ReplaceRowFromLedger, QueryFromLedger, columnsLoop_short K _ h]
  · intro h
    have hle : GetNumberOfKeys T ≤ K.length := by omega
    have hle2 : GetNumberOfKeys T ≤ (K.take (GetNumberOfKeys T)).length := by
      simp [List.length_take]; omega
    refine ⟨?_, ?_, QueryFromLedger_stub stub T K hle⟩
    · unfold UpdateLedger
      simp only [columnsLoop_take K _ hle, columnsLoop_take _ _ hle2, List.take_take,
        Nat.min_self, index_take_zero K _ h1]
    · unfold ReplaceRowFromLedger
      simp only [columnsLoop_take K _ hle, columnsLoop_take _ _ hle2, List.take_take,
        Nat.min_self, index_take_zero K _ h1]

/-! ## Rows of a table -/

theorem lookup_putRow (k : GoString) (r : Row) (rows : List (GoString × Row)) :
    (putRow k r rows).lookup k = some r := by
  simp [putRow, List.lookup]

theorem lookup_filter_ne (k : GoString) (rows : List (GoString × Row)) :
    (rows.filter fun e => e.1 ≠ k).lookup k = none := by
  rw [List.lookup_eq_none_iff]
  intro p hp
  have := (List.mem_filter.1 hp).2
  simp only [ne_eq, decide_not, Bool.not_eq_true', decide_eq_false_iff_not] at this
  simp only [bne_iff_ne, ne_eq]
  exact fun e => this e.symm

theorem keyOfRow_key (K : List GoString) (V : GoString) (ds : List ColumnDefinition)
    (hlen : ds.length = K.length) (hds : ∀ d ∈ ds, d.Type_ = .STRING ∧ d.Key = true) :
    keyOfRow (K.map .String_ ++ [.Bytes V]) (ds ++ [⟨utf8 "Details", .BYTES, false⟩])
      = some (K.map .String_) := by
  induction K generalizing ds with
  | nil =>
    have : ds = [] := List.length_eq_zero.1 hlen
    subst this
    simp [keyOfRow, Column.fits]
  | cons k ks ih =>
    cases ds with
    | nil => simp at hlen
    | cons d ds =>
      have hd := hds d (List.mem_cons_self _ _)
      have := ih ds (by simpa using hlen) (fun e he => hds e (List.mem_cons_of_mem _ he))
      simp only [List.map_cons, List.cons_append, keyOfRow, Column.fits, hd.1, hd.2,
        decide_True, if_true, List.append_eq, this]

theorem getKeyAndVerifyRow_rowOf (T : GoString) (K : List GoString) (V : GoString)
    (hK : K.length = GetNumberOfKeys T) :
    getKeyAndVerifyRow T (tableColumns T) (rowOf K V) = .ok (K.map .String_) := by
  unfold getKeyAndVerifyRow tableColumns rowOf
  rw [keyColumnDefs_eq]
  have hk := keyOfRow_key K V
    ((List.range (GetNumberOfKeys T)).map fun j =>
      (⟨utf8 "keyName" ++ Itoa (0 + j), .STRING, true⟩ : ColumnDefinition))
    (by simp [hK]) (by
      intro d hd
      obtain ⟨j, -, rfl⟩ := List.mem_map.1 hd
      exact ⟨rfl, rfl⟩)
  simp only [List.nil_append, hk]
  simp [hK]

theorem insertRowInternal_rowOf (stub : Stub) (T : GoString) (K : List GoString)
    (V : GoString) (update : Bool) (hT : T ≠ []) (hK : K.length = GetNumberOfKeys T)
    (ht : stub.tables.lookup T = some (tableColumns T)) :
    stub.insertRowInternal T (rowOf K V) update
      = if (stub.rows.lookup (keyOf T K)).isSome = update then
          (true, none, { stub with rows := putRow (keyOf T K) (rowOf K V) stub.rows })
        else (false, none, stub) := by
  unfold Stub.insertRowInternal
  rw [getTable_some stub T _ hT ht]
  simp only [getKeyAndVerifyRow_rowOf T K V hK, buildKeyString_ok T _ hT]
  unfold keyOf
  cases (stub.rows.lookup (keyString T (K.map .String_))).isSome <;> cases update <;> rfl

theorem UpdateLedger_full (stub : Stub) (T : GoString) (K : List GoString) (V : GoString)
    (hT : T ≠ []) (hK : K.length = GetNumberOfKeys T)
    (ht : stub.tables.lookup T = some (tableColumns T)) :
    UpdateLedger stub T K V
      = if (stub.rows.lookup (keyOf T K)).isSome then
          match index K 0 with
          | .panic p =>
            (.panic p, { stub with calls := stub.calls ++ [.InsertRow T (rowOf K V)] })
          | .done k0 =>
            (.done (some (.new (utf8 "UpdateLedger: InsertRow into " ++ T
              ++ utf8 " Table failed. Row with given key " ++ k0 ++ utf8 " already exists"))),
              { stub with calls := stub.calls ++ [.InsertRow T (rowOf K V)] })
        else
          (.done none, { stub with
            calls := stub.calls ++ [.InsertRow T (rowOf K V)]
            rows := putRow (keyOf T K) (rowOf K V) stub.rows }) := by
  have hc : columnsLoop K (GetNumberOfKeys T) 0 [] = .done (K.map .String_) := by
    rw [columnsLoop_take K _ (by omega), ← hK, List.take_length]
  have := insertRowInternal_rowOf
    { stub with calls := stub.calls ++ [.InsertRow T (rowOf K V)] } T K V false hT hK ht
  unfold rowOf at this ⊢
  simp only [UpdateLedger, Stub.InsertRow, hc, this]
  cases h : (stub.rows.lookup (keyOf T K)).isSome <;> simp


theorem UpdateLedger_no_table (stub : Stub) (T : GoString) (K : List GoString) (V : GoString)
    (hl : stub.tables.lookup T = none) : (UpdateLedger stub T K V).1 ≠ .done none := by
  simp only [UpdateLedger]
  cases columnsLoop K (GetNumberOfKeys T) 0 [] with
  | panic p => simp
  | done columns =>
    obtain ⟨e, he⟩ := getTable_none
      { stub with calls := stub.calls ++ [.InsertRow T ⟨columns ++ [.Bytes V]⟩] } T hl
    simp [Stub.InsertRow, Stub.insertRowInternal, he]

theorem UpdateLedger_ok (stub stub1 : Stub) (T : GoString) (K : List GoString) (V : GoString)
    (hT : T ≠ []) (hK : K.length = GetNumberOfKeys T) (hs : stub.Sound)
    (h : UpdateLedger stub T K V = (.done none, stub1)) :
    stub.tables.lookup T = some (tableColumns T) ∧
    stub1 = { stub with
      calls := stub.calls ++ [.InsertRow T (rowOf K V)]
      rows := putRow (keyOf T K) (rowOf K V) stub.rows } := by
  cases hl : stub.tables.lookup T with
  | none => exact absurd (congrArg Prod.fst h) (UpdateLedger_no_table stub T K V hl)
  | some defs =>
    have hd := hs T defs hl
    subst hd
    refine ⟨rfl, ?_⟩
    rw [UpdateLedger_full stub T K V hT hK hl] at h
    cases hp : (stub.rows.lookup (keyOf T K)).isSome
    · simp only [hp, Bool.false_eq_true, if_false, Prod.mk.injEq, true_and] at h
      exact h.symm
    · simp only [hp, if_true] at h
      cases hi : index K 0 <;> simp [hi] at h

theorem GetRow_found (stub : Stub) (T : GoString) (key : List Column) (row : Row)
    (hT : T ≠ []) (h : stub.rows.lookup (keyString T key) = some row) :
    stub.GetRow T key = (row, none, { stub with calls := stub.calls ++ [.GetRow T key] }) := by
  simp [Stub.GetRow, buildKeyString_ok T key hT, h]

theorem GetRow_missing (stub : Stub) (T : GoString) (key : List Column)
    (hT : T ≠ []) (h : stub.rows.lookup (keyString T key) = none) :
    stub.GetRow T key = (⟨[]⟩, none, { stub with calls := stub.calls ++ [.GetRow T key] }) := by
  simp [Stub.GetRow, buildKeyString_ok T key hT, h]

theorem QueryFromLedger_found (stub : Stub) (T : GoString) (K : List GoString) (V : GoString)
    (hT : T ≠ []) (hK : K.length = GetNumberOfKeys T)
    (h : stub.rows.lookup (keyOf T K) = some (rowOf K V)) :
    QueryFromLedger stub T K
      = match ProcessQueryResult (afterGetRow stub T K) V K with
        | .panic p => (.panic p, afterGetRow stub T K)
        | .done (some _) =>
          match index K 1 with
          | .panic p => (.panic p, afterGetRow stub T K)
          | .done _ =>
            match index K 0 with
            | .panic p => (.panic p, afterGetRow stub T K)
            | .done a0 =>
              (.done ([], some (.new (utf8
                "\x7b\"QueryLedger() Error\":\" Cannot create Object for key " ++ a0
                ++ utf8 "\"\x7d"))), afterGetRow stub T K)
        | .done none => (.done (V, none), afterGetRow stub T K) := by
  have hc : columnsLoop K (GetNumberOfKeys T) 0 [] = .done (K.map .String_) := by
    rw [columnsLoop_take K _ (by omega), ← hK, List.take_length]
  have hg := GetRow_found stub T (K.map .String_) (rowOf K V) hT h
  have hget : (rowOf K V).Columns.get? (GetNumberOfKeys T) = some (.Bytes V) := by
    simp [rowOf, ← hK, List.getElem?_append]
  have hlen : (rowOf K V).Columns.length ≠ 0 := by simp [rowOf]
  simp only [QueryFromLedger, hc, hg, hlen, if_false, hget, Column.GetBytes, afterGetRow]

theorem QueryFromLedger_missing (stub : Stub) (T : GoString) (k0 : GoString)
    (ks : List GoString) (hK : (k0 :: ks).length = GetNumberOfKeys T)
    (h : stub.rows.lookup (keyOf T (k0 :: ks)) = none) :
    QueryFromLedger stub T (k0 :: ks)
      = (.done ([], some (.new (utf8 "\x7b\"Error\":\"Failed retrieving data " ++ k0
          ++ utf8 ". \"\x7d"))), afterGetRow stub T (k0 :: ks)) := by
  have hc : columnsLoop (k0 :: ks) (GetNumberOfKeys T) 0 [] = .done ((k0 :: ks).map .String_) := by
    rw [columnsLoop_take _ _ (by omega), ← hK, List.take_length]
  have hg := GetRow_missing stub T ((k0 :: ks).map .String_)
    (ne_nil_of_keys T (by rw [← hK]; simp)) h
  simp only [QueryFromLedger, hc, hg, afterGetRow]
  simp [index]

/-! ## Soundness of the ledgers the chaincode builds -/

theorem Sound_empty : Stub.empty.Sound := by
  intro T defs h
  simp [Stub.empty] at h

theorem CreateTable_tables (stub : Stub) (name : GoString) (defs : List ColumnDefinition) :
    (stub.CreateTable name defs).2.tables = stub.tables ∨
    (stub.CreateTable name defs).2.tables = (name, defs) :: stub.tables := by
  unfold Stub.CreateTable
  cases stub.getTable name with
  | ok d => simp
  | error e =>
    simp only []
    split_ifs <;> simp

theorem Sound_InitLedger (stub : Stub) (T : GoString) (hs : stub.Sound) :
    (InitLedger stub T).2.Sound := by
  simp only [InitLedger]
  by_cases hn : GetNumberOfKeys T < 1
  · simpa [hn] using hs
  · simp only [hn, if_false]
    have ht := CreateTable_tables stub T (tableColumns T)
    unfold tableColumns at ht
    generalize stub.CreateTable T
        (keyColumnDefs (GetNumberOfKeys T) 0 [] ++ [⟨utf8 "Details", .BYTES, false⟩]) = r at ht ⊢
    obtain ⟨e, s1⟩ := r
    have hs1 : s1.Sound := by
      intro T2 defs hl
      rcases ht with ht | ht
      · simp only at ht
        rw [ht] at hl
        exact hs T2 defs hl
      · simp only at ht
        rw [ht, List.lookup_cons] at hl
        by_cases he : T2 = T
        · subst he
          simp only [beq_self_eq_true, Option.some.injEq] at hl
          exact hl.symm
        · have : (T2 == T) = false := by simpa using he
          simp only [this] at hl
          exact hs T2 defs hl
    cases e <;> exact hs1

theorem Sound_foldl (l : List GoString) (stub : Stub) (hs : stub.Sound) :
    (l.foldl (fun stub aucTable => (InitLedger stub aucTable).2) stub).Sound := by
  induction l generalizing stub with
  | nil => exact hs
  | cons t l ih => exact ih _ (Sound_InitLedger stub t hs)

theorem Sound_initStub : initStub.Sound := Sound_foldl aucTables .empty Sound_empty


/-! ## Insert, query and delete -/

/-- C3: on a ledger whose tables were created by `InitLedger`, once
`UpdateLedger(T, K, V)` has succeeded for a registered table and a full key tuple, a
second `UpdateLedger(T, K, V2)` returns the `Row with given key ... already exists`
error, and the tables and rows of the ledger after it are those before it: the row
of `K` still holds `V`. -/
theorem duplicate_insert_rejected (stub stub1 : Stub) (T : GoString) (K : List GoString)
    (V V2 : GoString) (hT : T ∈ aucTables) (hK : K.length = GetNumberOfKeys T)
    (hs : stub.Sound) (h : UpdateLedger stub T K V = (.done none, stub1)) :
    (∃ k0, K.head? = some k0 ∧
      (UpdateLedger stub1 T K V2).1 = .done (some (.new (utf8 "UpdateLedger: InsertRow into "
        ++ T ++ utf8 " Table failed. Row with given key " ++ k0 ++ utf8 " already exists")))) ∧
    (UpdateLedger stub1 T K V2).2.tables = stub1.tables ∧
    (UpdateLedger stub1 T K V2).2.rows = stub1.rows ∧
    (UpdateLedger stub1 T K V2).2.rows.lookup (keyOf T K) = some (rowOf K V) := by
  obtain ⟨ht, rfl⟩ := UpdateLedger_ok stub stub1 T K V (ne_nil_of_mem T hT) hK hs h
  have h1 := (aucTables_keys T hT).1
  cases K with
  | nil => simp at hK; omega
  | cons k0 ks =>
    rw [UpdateLedger_full
      { stub with
        calls := stub.calls ++ [.InsertRow T (rowOf (k0 :: ks) V)]
        rows := putRow (keyOf T (k0 :: ks)) (rowOf (k0 :: ks) V) stub.rows }
      T (k0 :: ks) V2 (ne_nil_of_mem T hT) hK ht]
    simp only [lookup_putRow, Option.isSome_some, if_true, index, List.get?_cons_zero]
    exact ⟨⟨k0, rfl, rfl⟩, trivial, trivial, trivial⟩

/-- C3 on the ledger `initStub` with its ten tables: a record is stored in `UserTable`
under the key `1`, and a second insert under the same key is rejected. -/
theorem duplicate_insert_rejected_witness :
    (∃ k0, [utf8 "1"].head? = some k0 ∧
      (UpdateLedger bidStub (utf8 "UserTable") [utf8 "1"] (utf8 "\x7b\x7d")).1
        = .done (some (.new (utf8 "UpdateLedger: InsertRow into "
        ++ utf8 "UserTable" ++ utf8 " Table failed. Row with given key " ++ k0
        ++ utf8 " already exists")))) ∧
    (UpdateLedger bidStub (utf8 "UserTable") [utf8 "1"] (utf8 "\x7b\x7d")).2.tables
      = bidStub.tables ∧
    (UpdateLedger bidStub (utf8 "UserTable") [utf8 "1"] (utf8 "\x7b\x7d")).2.rows
      = bidStub.rows ∧
    (UpdateLedger bidStub (utf8 "UserTable") [utf8 "1"] (utf8 "\x7b\x7d")).2.rows.lookup
      (keyOf (utf8 "UserTable") [utf8 "1"]) = some (rowOf [utf8 "1"] bidRecord) :=
  duplicate_insert_rejected initStub bidStub (utf8 "UserTable") [utf8 "1"] bidRecord
    (utf8 "\x7b\x7d") (by decide) (by decide) Sound_initStub (by decide)

theorem DeleteFromLedger_nonempty (stub : Stub) (T : GoString) (K : List GoString)
    (hT : T ≠ []) (hK : K ≠ []) :
    DeleteFromLedger stub T K = (.done none, { stub with
      calls := stub.calls ++ [.DeleteRow T (K.map .String_)]
      rows := stub.rows.filter fun e => e.1 ≠ keyOf T K }) := by
  have hlen : ¬ K.length < 1 := by
    cases K with
    | nil => exact absurd rfl hK
    | cons k ks => simp
  have hc : columnsLoop K K.length 0 [] = .done (K.map .String_) := by
    rw [columnsLoop_take K _ (le_refl _), List.take_length]
  simp only [DeleteFromLedger, hlen, if_false, hc, Stub.DeleteRow, keyOf,
    buildKeyString_ok T _ hT]

theorem DeleteFromLedger_empty_name (stub : Stub) (K : List GoString) (hK : K ≠ []) :
    DeleteFromLedger stub [] K
      = (.done (some (.errorf (utf8 "DeleteFromLedger operation failed. %s") (.new (utf8
          "Inavlid table name. Table name must be 1 or more characters.")))),
        { stub with calls := stub.calls ++ [.DeleteRow [] (K.map .String_)] }) := by
  have hlen : ¬ K.length < 1 := by
    cases K with
    | nil => exact absurd rfl hK
    | cons k ks => simp
  have hc : columnsLoop K K.length 0 [] = .done (K.map .String_) := by
    rw [columnsLoop_take K _ (le_refl _), List.take_length]
  simp only [DeleteFromLedger, hlen, if_false, hc, Stub.DeleteRow, buildKeyString_nil]

/-- C7, as amended: for a registered table `T`, `DeleteFromLedger` returns an error for
the empty key list, and then issues no call. For a non-empty key list it issues one
`DeleteRow` call and returns no error, whether or not a row with that key exists: the
rows after it are the rows before it without the row of that key. After it, a
`QueryFromLedger` with the same full key tuple returns an error. -/
theorem DeleteFromLedger_semantics (stub : Stub) (T : GoString) (K : List GoString)
    (hT : T ∈ aucTables) :
    DeleteFromLedger stub T [] = (.done (some (.new (utf8
      "DeleteFromLedger failed. Must include at least key values"))), stub) ∧
    (K ≠ [] → DeleteFromLedger stub T K = (.done none, { stub with
      calls := stub.calls ++ [.DeleteRow T (K.map .String_)]
      rows := stub.rows.filter fun e => e.1 ≠ keyOf T K })) ∧
    (K ≠ [] → K.length = GetNumberOfKeys T →
      ∃ e, (QueryFromLedger (DeleteFromLedger stub T K).2 T K).1 = .done ([], some e)) := by
  have hT0 := ne_nil_of_mem T hT
  refine ⟨rfl, DeleteFromLedger_nonempty stub T K hT0, fun hne hK => ?_⟩
  rw [DeleteFromLedger_nonempty stub T K hT0 hne]
  cases K with
  | nil => exact absurd rfl hne
  | cons k0 ks =>
    rw [QueryFromLedger_missing _ T k0 ks hK (lookup_filter_ne _ _)]
    exact ⟨_, rfl⟩

/-- C7 on a ledger that holds a row under the key `1` of `UserTable`: the delete
returns no error, and after it the query fails. -/
theorem DeleteFromLedger_semantics_witness :
    (DeleteFromLedger bidStub (utf8 "UserTable") [utf8 "1"]).1 = .done none ∧
    ∃ e, (QueryFromLedger (DeleteFromLedger bidStub (utf8 "UserTable") [utf8 "1"]).2
      (utf8 "UserTable") [utf8 "1"]).1 = .done ([], some e) :=
  ⟨congrArg Prod.fst ((DeleteFromLedger_semantics bidStub (utf8 "UserTable") [utf8 "1"]
      (by decide)).2.1 (List.cons_ne_nil _ _)),
    (DeleteFromLedger_semantics bidStub (utf8 "UserTable") [utf8 "1"] (by decide)).2.2
      (List.cons_ne_nil _ _) (by decide)⟩

/-- C7, counterexample: the ledger `initStub` has no row under the key `1` of the
registered table `UserTable`, and `DeleteFromLedger` of that key returns no error. -/
theorem DeleteFromLedger_missing_row_counterexample :
    utf8 "UserTable" ∈ aucTables ∧
    initStub.rows.lookup (keyOf (utf8 "UserTable") [utf8 "1"]) = none ∧
    (DeleteFromLedger initStub (utf8 "UserTable") [utf8 "1"]).1 = .done none := by
  decide

/-- C2 at `UserTable`, of arity 1, with a key list of two elements. -/
theorem key_arity_not_enforced_witness :
    UpdateLedger initStub (utf8 "UserTable") [utf8 "1", utf8 "2"] bidRecord
      = UpdateLedger initStub (utf8 "UserTable")
          ([utf8 "1", utf8 "2"].take (GetNumberOfKeys (utf8 "UserTable"))) bidRecord ∧
    ReplaceRowFromLedger initStub (utf8 "UserTable") [utf8 "1", utf8 "2"] bidRecord
      = ReplaceRowFromLedger initStub (utf8 "UserTable")
          ([utf8 "1", utf8 "2"].take (GetNumberOfKeys (utf8 "UserTable"))) bidRecord ∧
    (QueryFromLedger initStub (utf8 "UserTable") [utf8 "1", utf8 "2"]).2
      = { initStub with calls := initStub.calls ++ [.GetRow (utf8 "UserTable")
            (([utf8 "1", utf8 "2"].take (GetNumberOfKeys (utf8 "UserTable"))).map
              .String_)] } :=
  (key_arity_not_enforced initStub (utf8 "UserTable") [utf8 "1", utf8 "2"] bidRecord
    (by decide)).2 (by decide)

/-- C2, counterexample: on the ledger `initStub` with its ten tables, `UpdateLedger`
accepts two keys for `UserTable`, of arity 1, without an error and stores the row under
the first key alone, where `QueryFromLedger` with that one key finds it; and with one key
for `UserCatTable`, of arity 3, it panics instead of returning an error. -/
theorem key_arity_counterexample :
    (UpdateLedger initStub (utf8 "UserTable") [utf8 "1", utf8 "2"] bidRecord).1 = .done none ∧
    (UpdateLedger initStub (utf8 "UserTable") [utf8 "1", utf8 "2"] bidRecord).2.rows
      = [(keyOf (utf8 "UserTable") [utf8 "1"], rowOf [utf8 "1"] bidRecord)] ∧
    (QueryFromLedger
      (UpdateLedger initStub (utf8 "UserTable") [utf8 "1", utf8 "2"] bidRecord).2
      (utf8 "UserTable") [utf8 "1"]).1 = .done (bidRecord, none) ∧
    (UpdateLedger initStub (utf8 "UserCatTable") [utf8 "2017"] bidRecord).1
      = .panic (.indexOutOfRange 1 1) := by
  decide

/-! ## The type dispatcher -/

/-- C4, as amended: `ProcessQueryResult` returns no error for any of the three kinds of
bad payload. When `json.Unmarshal` into the map fails it panics with that error; when
the decoded map has no string under the key the code reads it panics on the type
assertion; when that string is anything but `USER`, a known record kind or not, it
returns `nil`. An error is returned only for a `USER` record that `JsonToUser`
rejects. -/
theorem ProcessQueryResult_cases (stub : Stub) (b : GoString) (args : List GoString) :
    (∀ err, UnmarshalMap b = .error err →
      ProcessQueryResult stub b args = .panic (.error err)) ∧
    (∀ dat, UnmarshalMap b = .ok dat →
      (∀ s, mapIndex dat (utf8 "RecTYpe") ≠ some (.string s)) →
      ProcessQueryResult stub b args = .panic .typeAssertion) ∧
    (∀ dat s, UnmarshalMap b = .ok dat → mapIndex dat (utf8 "RecTYpe") = some (.string s) →
      s ≠ utf8 "USER" → ProcessQueryResult stub b args = .done none) ∧
    (∀ e, ProcessQueryResult stub b args = .done (some e) →
      ∃ dat, UnmarshalMap b = .ok dat ∧
        mapIndex dat (utf8 "RecTYpe") = some (.string (utf8 "USER")) ∧
        (JsonToUser b).2 = some e) := by
  refine ⟨?_, ?_, ?_, ?_⟩
  · intro err h
    simp [ProcessQueryResult, h]
  · intro dat h hs
    simp only [ProcessQueryResult, h]
  · intro dat s h hm hne
    simp [ProcessQueryResult, h, hm, hne]
  · intro e h
    unfold ProcessQueryResult at h
    cases hu : UnmarshalMap b with
    | error err => simp [hu] at h
    | ok dat =>
      simp only [hu] at h
      cases hm : mapIndex dat (utf8 "RecTYpe") with
      | none => simp [hm] at h
      | some v =>
        cases v with
        | string s =>
          simp only [hm] at h
          by_cases hs : s = utf8 "USER"
          · subst hs
            simp only [if_true] at h
            refine ⟨dat, rfl, hm, ?_⟩
            rcases hj : JsonToUser b with ⟨u, e2⟩
            rw [hj] at h
            cases e2 with
            | none => simp at h
            | some e3 =>
              simp only [Run.done.injEq, Option.some.injEq] at h
              simp [h]
          · simp [hs] at h
        | _ => simp [hm] at h

/-- C4 at three payloads: text that is no JSON panics, an object with no `RecTYpe`
panics, an object whose record kind is `FOO` is accepted. -/
theorem ProcessQueryResult_cases_witness :
    ProcessQueryResult .empty (utf8 "not json") [] = .panic (.error .jsonSyntax) ∧
    ProcessQueryResult .empty (utf8 "\x7b\"RecType\":\"FOO\"\x7d") [] = .panic .typeAssertion ∧
    ProcessQueryResult .empty (utf8 "\x7b\"RecTYpe\":\"FOO\"\x7d") [] = .done none :=
  ⟨(ProcessQueryResult_cases .empty (utf8 "not json") []).1 .jsonSyntax (by rfl),
   (ProcessQueryResult_cases .empty (utf8 "\x7b\"RecType\":\"FOO\"\x7d") []).2.1
     (some [(utf8 "RecType", .string (utf8 "FOO"))]) (by rfl)
     (fun s h => by simp [mapIndex, List.lookup, show (utf8 "RecTYpe" == utf8 "RecType") = false by decide] at h),
   (ProcessQueryResult_cases .empty (utf8 "\x7b\"RecTYpe\":\"FOO\"\x7d") []).2.2.1
     (some [(utf8 "RecTYpe", .string (utf8 "FOO"))]) (utf8 "FOO") (by rfl) (by rfl)
     (by decide)⟩

/-- C4, counterexample: for the unparseable payload `not json` and for an object
without a discriminator `ProcessQueryResult` panics, and for the discriminator `FOO`,
which is no known record kind, it returns `nil`; in no case an error. -/
theorem ProcessQueryResult_counterexample :
    ProcessQueryResult .empty (utf8 "not json") [] = .panic (.error .jsonSyntax) ∧
    ProcessQueryResult .empty (utf8 "\x7b\x7d") [] = .panic .typeAssertion ∧
    utf8 "FOO" ∉ recType ∧
    ProcessQueryResult .empty (utf8 "\x7b\"RecTYpe\":\"FOO\"\x7d") [] = .done none := by
  decide

/-! ## UTF-8 -/

theorem isCont_iff (b : Nat) : isCont b = true ↔ 0x80 ≤ b ∧ b ≤ 0xBF := by
  simp [isCont]

theorem list2_eq {a b a' b' : Nat} (h1 : a = a') (h2 : b = b') :
    ([a, b] : List Nat) = [a', b'] := by
  subst h1 h2; rfl

theorem list3_eq {a b c a' b' c' : Nat} (h1 : a = a') (h2 : b = b') (h3 : c = c') :
    ([a, b, c] : List Nat) = [a', b', c'] := by
  subst h1 h2 h3; rfl

theorem list4_eq {a b c d a' b' c' d' : Nat} (h1 : a = a') (h2 : b = b') (h3 : c = c')
    (h4 : d = d') : ([a, b, c, d] : List Nat) = [a', b', c', d'] := by
  subst h1 h2 h3 h4; rfl

theorem EncodeRune_two (p0 b1 : Nat) (h0 : 0xC2 ≤ p0) (h1 : p0 < 0xE0) (hb : 0x80 ≤ b1 ∧ b1 ≤ 0xBF) :
    EncodeRune (p0 % 32 * 64 + b1 % 64) = [p0, b1] := by
  unfold EncodeRune
  rw [if_neg (by omega), if_pos (by omega)]
  exact list2_eq (by omega) (by omega)

theorem EncodeRune_three (p0 b1 b2 : Nat) (h0 : 0xE0 ≤ p0) (h1 : p0 < 0xF0)
    (hl : (if p0 = 0xE0 then 0xA0 else 0x80) ≤ b1)
    (hh : b1 ≤ (if p0 = 0xED then 0x9F else 0xBF))
    (hb : 0x80 ≤ b2 ∧ b2 ≤ 0xBF) :
    EncodeRune (p0 % 16 * 4096 + b1 % 64 * 64 + b2 % 64) = [p0, b1, b2] := by
  have hl' : 0x80 ≤ b1 ∧ (p0 = 0xE0 → 0xA0 ≤ b1) := by split_ifs at hl <;> omega
  have hh' : b1 ≤ 0xBF ∧ (p0 = 0xED → b1 ≤ 0x9F) := by split_ifs at hh <;> omega
  unfold EncodeRune MaxRune
  clear hl hh
  rw [if_neg (by omega), if_neg (by omega), if_neg (by omega), if_pos (by omega)]
  exact list3_eq (by omega) (by omega) (by omega)

theorem EncodeRune_four (p0 b1 b2 b3 : Nat) (h0 : 0xF0 ≤ p0) (h1 : p0 < 0xF5)
    (hl : (if p0 = 0xF0 then 0x90 else 0x80) ≤ b1)
    (hh : b1 ≤ (if p0 = 0xF4 then 0x8F else 0xBF))
    (hb : 0x80 ≤ b2 ∧ b2 ≤ 0xBF) (hc : 0x80 ≤ b3 ∧ b3 ≤ 0xBF) :
    EncodeRune (p0 % 8 * 262144 + b1 % 64 * 4096 + b2 % 64 * 64 + b3 % 64) = [p0, b1, b2, b3] := by
  have hl' : 0x80 ≤ b1 ∧ (p0 = 0xF0 → 0x90 ≤ b1) := by split_ifs at hl <;> omega
  have hh' : b1 ≤ 0xBF ∧ (p0 = 0xF4 → b1 ≤ 0x8F) := by split_ifs at hh <;> omega
  unfold EncodeRune MaxRune
  clear hl hh
  rw [if_neg (by omega), if_neg (by omega), if_neg (by omega), if_neg (by omega)]
  exact list4_eq (by omega) (by omega) (by omega) (by omega)

/-- A rune that `DecodeRune` reads without error: its width is 2, 3 or 4 bytes, these
bytes are its encoding, and the decoding looks at no byte after them. -/
theorem DecodeRune_valid (p0 : Nat) (rest : GoString) (h80 : ¬ p0 < 0x80)
    (hv : (DecodeRune (p0 :: rest)).2 ≠ 1) :
    EncodeRune (DecodeRune (p0 :: rest)).1 = (p0 :: rest).take (DecodeRune (p0 :: rest)).2 ∧
    2 ≤ (DecodeRune (p0 :: rest)).2 ∧
    (DecodeRune (p0 :: rest)).2 ≤ (p0 :: rest).length ∧
    ∀ q, DecodeRune ((p0 :: rest).take (DecodeRune (p0 :: rest)).2 ++ q)
      = DecodeRune (p0 :: rest) := by
  unfold DecodeRune at hv ⊢
  simp only [h80, if_false] at hv ⊢
  by_cases h1 : p0 < 0xC2
  · simp [h1] at hv
  simp only [h1, if_false] at hv ⊢
  by_cases h2 : p0 < 0xE0
  · simp only [h2, if_true] at hv ⊢
    cases rest with
    | nil => simp at hv
    | cons b1 r =>
      by_cases hc : isCont b1 = true
      · simp only [hc, if_true] at hv ⊢
        have hb := (isCont_iff b1).1 hc
        refine ⟨?_, by omega, by simp, ?_⟩
        · rw [EncodeRune_two p0 b1 (by omega) h2 hb]; rfl
        · intro q
          simp [DecodeRune, h80, h1, h2, hc]
      · simp [hc] at hv
  simp only [h2, if_false] at hv ⊢
  by_cases h3 : p0 < 0xF0
  · simp only [h3, if_true] at hv ⊢
    match rest, hv with
    | [], hv => simp at hv
    | [_], hv => simp at hv
    | b1 :: b2 :: r, hv =>
      simp only at hv ⊢
      by_cases hc : (if p0 = 0xE0 then 0xA0 else 0x80) ≤ b1
          ∧ b1 ≤ (if p0 = 0xED then 0x9F else 0xBF) ∧ isCont b2 = true
      · simp only [hc, and_self, if_true] at hv ⊢
        have hb := (isCont_iff b2).1 hc.2.2
        refine ⟨?_, by omega, by simp, ?_⟩
        · rw [EncodeRune_three p0 b1 b2 (by omega) h3 hc.1 hc.2.1 hb]; rfl
        · intro q
          simp [DecodeRune, h80, h1, h2, h3, hc]
      · simp [hc] at hv
  simp only [h3, if_false] at hv ⊢
  by_cases h4 : p0 < 0xF5
  · simp only [h4, if_true] at hv ⊢
    match rest, hv with
    | [], hv => simp at hv
    | [_], hv => simp at hv
    | [_, _], hv => simp at hv
    | b1 :: b2 :: b3 :: r, hv =>
      simp only at hv ⊢
      by_cases hc : (if p0 = 0xF0 then 0x90 else 0x80) ≤ b1
          ∧ b1 ≤ (if p0 = 0xF4 then 0x8F else 0xBF) ∧ isCont b2 = true ∧ isCont b3 = true
      · simp only [hc, and_self, if_true] at hv ⊢
        have hb := (isCont_iff b2).1 hc.2.2.1
        have hb3 := (isCont_iff b3).1 hc.2.2.2
        refine ⟨?_, by omega, by simp, ?_⟩
        · rw [EncodeRune_four p0 b1 b2 b3 (by omega) h4 hc.1 hc.2.1 hb hb3]; rfl
        · intro q
          simp [DecodeRune, h80, h1, h2, h3, h4, hc]
      · simp [hc] at hv
  · simp [h4] at hv

/-! ## JSON strings -/

theorem hexVal_hex (x : Nat) (h : x < 16) : hexVal (hex x) = some x := by
  unfold hexVal hex
  by_cases h10 : x < 10
  · simp only [h10, if_true]
    rw [if_pos (by omega)]
    congr 1
    omega
  · simp only [h10, if_false]
    rw [if_neg (by omega), if_pos (by omega)]
    congr 1
    omega

theorem getu4_hex (x y z w : Nat) (tail : GoString) (hx : x < 16) (hy : y < 16) (hz : z < 16)
    (hw : w < 16) :
    getu4 (0x5C :: 0x75 :: hex x :: hex y :: hex z :: hex w :: tail)
      = some (((x * 16 + y) * 16 + z) * 16 + w) := by
  simp only [getu4, hexVal_hex x hx, hexVal_hex y hy, hexVal_hex z hz, hexVal_hex w hw]

theorem unquoteLoop_u4 (f a b c d v : Nat) (tail : GoString)
    (hv : getu4 (0x5C :: 0x75 :: a :: b :: c :: d :: tail) = some v)
    (hs : isSurrogate v = false) :
    unquoteLoop (f + 1) (0x5C :: 0x75 :: a :: b :: c :: d :: tail)
      = prepend (EncodeRune v) (unquoteLoop f tail) := by
  simp only [unquoteLoop]
  simp only [hv, hs]
  simp

theorem unquoteLoop_ascii (f c : Nat) (tail : GoString) (h1 : 0x20 ≤ c) (h2 : c < 0x80)
    (h3 : c ≠ 0x22) (h4 : c ≠ 0x5C) :
    unquoteLoop (f + 1) (c :: tail) = prepend [c] (unquoteLoop f tail) := by
  simp only [unquoteLoop]
  simp [h3, h4, h2, show ¬ c < 0x20 by omega]

theorem unquoteLoop_multi (f p0 : Nat) (rest : GoString) (h : ¬ p0 < 0x80) :
    unquoteLoop (f + 1) (p0 :: rest)
      = prepend (EncodeRune (DecodeRune (p0 :: rest)).1)
          (unquoteLoop f ((p0 :: rest).drop (DecodeRune (p0 :: rest)).2)) := by
  simp only [unquoteLoop]
  simp [show p0 ≠ 0x22 by omega, show p0 ≠ 0x5C by omega, show ¬ p0 < 0x20 by omega, h]


theorem DecodeRune_size_one (b : Nat) (r : GoString) (hb : ¬ b < 0x80)
    (h : (DecodeRune (b :: r)).2 = 1) : (DecodeRune (b :: r)).1 = RuneError := by
  unfold DecodeRune at h ⊢
  simp only [hb, if_false] at h ⊢
  repeat' split
  all_goals first
    | rfl
    | (exfalso; omega)
    | (exfalso; revert h; simp [*])

theorem unquoteLoop_quote (f : Nat) (rest : GoString) :
    unquoteLoop (f + 1) (0x22 :: rest) = some ([], rest) := by
  simp only [unquoteLoop]
  simp

theorem unquoteLoop_esc (f e : Nat) (tail : GoString) (h : e = 0x22 ∨ e = 0x5C) :
    unquoteLoop (f + 1) (0x5C :: e :: tail) = prepend [e] (unquoteLoop f tail) := by
  simp only [unquoteLoop]
  rcases h with h | h <;> subst h <;> simp

theorem unquoteLoop_n (f : Nat) (tail : GoString) :
    unquoteLoop (f + 1) (0x5C :: 0x6E :: tail) = prepend [0x0A] (unquoteLoop f tail) := by
  simp only [unquoteLoop]
  simp

theorem unquoteLoop_r (f : Nat) (tail : GoString) :
    unquoteLoop (f + 1) (0x5C :: 0x72 :: tail) = prepend [0x0D] (unquoteLoop f tail) := by
  simp only [unquoteLoop]
  simp

theorem unquoteLoop_t (f : Nat) (tail : GoString) :
    unquoteLoop (f + 1) (0x5C :: 0x74 :: tail) = prepend [0x09] (unquoteLoop f tail) := by
  simp only [unquoteLoop]
  simp

theorem prepend_some (pre out rest : GoString) :
    prepend pre (some (out, rest)) = some (pre ++ out, rest) := rfl

/-- Reading back the JSON text of a string: the decoder's loop, run on what the
encoder's loop wrote for `s` and a closing quote, returns `s` with its invalid bytes
replaced, and stops after the quote. -/
theorem unquoteLoop_encodeLoop (n : Nat) (s rest : GoString) (f : Nat) (hn : s.length ≤ n)
    (hf : (encodeLoop n s).length < f) :
    unquoteLoop f (encodeLoop n s ++ 0x22 :: rest) = some (coerceLoop n s, rest) := by
  induction n generalizing s f with
  | zero =>
    have hs : s = [] := List.length_eq_zero.1 (by omega)
    subst hs
    obtain ⟨f, rfl⟩ : ∃ g, f = g + 1 := ⟨f - 1, by omega⟩
    simp [encodeLoop, coerceLoop, unquoteLoop_quote]
  | succ n ih =>
    obtain ⟨f, rfl⟩ : ∃ g, f = g + 1 := ⟨f - 1, by omega⟩
    cases s with
    | nil => simp [encodeLoop, coerceLoop, unquoteLoop_quote]
    | cons b r =>
      have hr : r.length ≤ n := by simpa using hn
      simp only [encodeLoop, coerceLoop] at hf ⊢
      by_cases hb : b < 0x80
      · simp only [hb, if_true] at hf ⊢
        by_cases hsafe : 0x20 ≤ b ∧ b ≠ 0x5C ∧ b ≠ 0x22 ∧ b ≠ 0x3C ∧ b ≠ 0x3E ∧ b ≠ 0x26
        · rw [if_pos hsafe] at hf ⊢
          simp only [List.length_append, List.length_cons, List.length_nil] at hf
          simp only [List.cons_append, List.nil_append, List.append_assoc]
          rw [unquoteLoop_ascii f b _ hsafe.1 hb hsafe.2.2.1 hsafe.2.1,
            ih r f hr (by omega), prepend_some]
          rfl
        · rw [if_neg hsafe] at hf ⊢
          by_cases h1 : b = 0x5C ∨ b = 0x22
          · rw [if_pos h1] at hf ⊢
            simp only [List.length_append, List.length_cons, List.length_nil] at hf
            simp only [List.cons_append, List.nil_append, List.append_assoc]
            rw [unquoteLoop_esc f b _ (by omega), ih r f hr (by omega), prepend_some]
            rfl
          · rw [if_neg h1] at hf ⊢
            by_cases h2 : b = 0x0A
            · rw [if_pos h2] at hf ⊢
              simp only [List.length_append, List.length_cons, List.length_nil] at hf
              simp only [List.cons_append, List.nil_append, List.append_assoc]
              rw [unquoteLoop_n, ih r f hr (by omega), prepend_some, h2]
              rfl
            · rw [if_neg h2] at hf ⊢
              by_cases h3 : b = 0x0D
              · rw [if_pos h3] at hf ⊢
                simp only [List.length_append, List.length_cons, List.length_nil] at hf
                simp only [List.cons_append, List.nil_append, List.append_assoc]
                rw [unquoteLoop_r, ih r f hr (by omega), prepend_some, h3]
                rfl
              · rw [if_neg h3] at hf ⊢
                by_cases h4 : b = 0x09
                · rw [if_pos h4] at hf ⊢
                  simp only [List.length_append, List.length_cons, List.length_nil] at hf
                  simp only [List.cons_append, List.nil_append, List.append_assoc]
                  rw [unquoteLoop_t, ih r f hr (by omega), prepend_some, h4]
                  rfl
                · rw [if_neg h4] at hf ⊢
                  simp only [List.length_append, List.length_cons, List.length_nil] at hf
                  have hg := getu4_hex 0 0 (b / 16) (b % 16) (encodeLoop n r ++ 0x22 :: rest)
                    (by omega) (by omega) (by omega) (by omega)
                  have hv : ((0 * 16 + 0) * 16 + b / 16) * 16 + b % 16 = b := by omega
                  rw [hv] at hg
                  have hh : hex 0 = 0x30 := rfl
                  rw [hh] at hg
                  simp only [List.cons_append, List.nil_append, List.append_assoc]
                  rw [unquoteLoop_u4 f _ _ _ _ b _ hg
                      (by simp only [isSurrogate, Bool.and_eq_false_imp, decide_eq_true_eq,
                        decide_eq_false_iff_not]; omega),
                    ih r f hr (by omega), prepend_some]
                  simp [EncodeRune, show b ≤ 0x7F by omega]
      · simp only [hb, if_false] at hf ⊢
        by_cases hinv : (DecodeRune (b :: r)).2 = 1
        · have hbad : (DecodeRune (b :: r)).1 = RuneError ∧ (DecodeRune (b :: r)).2 = 1 :=
            ⟨DecodeRune_size_one b r hb hinv, hinv⟩
          rw [if_pos hbad] at hf ⊢
          rw [if_pos hinv]
          simp only [List.length_append, List.length_cons, List.length_nil] at hf
          have hg := getu4_hex 15 15 15 13 (encodeLoop n r ++ 0x22 :: rest)
            (by omega) (by omega) (by omega) (by omega)
          have h15 : hex 15 = 0x66 := rfl
          have h13 : hex 13 = 0x64 := rfl
          rw [h15, h13] at hg
          simp only [List.cons_append, List.nil_append, List.append_assoc]
          rw [unquoteLoop_u4 f _ _ _ _ _ _ hg (by decide), ih r f hr (by omega), prepend_some]
          rfl
        · obtain ⟨henc, h2, hle, hq⟩ := DecodeRune_valid b r hb hinv
          have hgood : ¬ ((DecodeRune (b :: r)).1 = RuneError ∧ (DecodeRune (b :: r)).2 = 1) :=
            fun h => hinv h.2
          rw [if_neg hgood] at hf ⊢
          rw [if_neg hinv]
          have hdrop : ((b :: r).drop (DecodeRune (b :: r)).2).length ≤ n := by
            simp only [List.length_drop, List.length_cons] at hn ⊢
            omega
          have htl : ((b :: r).take (DecodeRune (b :: r)).2).length = (DecodeRune (b :: r)).2 := by
            rw [List.length_take]; omega
          by_cases hsep : (DecodeRune (b :: r)).1 = 0x2028 ∨ (DecodeRune (b :: r)).1 = 0x2029
          · rw [if_pos hsep] at hf ⊢
            simp only [List.length_append, List.length_cons, List.length_nil] at hf
            have hg := getu4_hex 2 0 2 ((DecodeRune (b :: r)).1 % 16)
              (encodeLoop n ((b :: r).drop (DecodeRune (b :: r)).2) ++ 0x22 :: rest)
              (by omega) (by omega) (by omega) (by omega)
            have hv : ((2 * 16 + 0) * 16 + 2) * 16 + (DecodeRune (b :: r)).1 % 16
                = (DecodeRune (b :: r)).1 := by omega
            rw [hv] at hg
            have hh2 : hex 2 = 0x32 := rfl
            have hh0 : hex 0 = 0x30 := rfl
            rw [hh2, hh0] at hg
            simp only [List.cons_append, List.nil_append, List.append_assoc]
            rw [unquoteLoop_u4 f _ _ _ _ _ _ hg
                (by simp only [isSurrogate, Bool.and_eq_false_imp, decide_eq_true_eq,
                  decide_eq_false_iff_not]; omega),
              ih _ f hdrop (by omega), prepend_some, henc]
          · rw [if_neg hsep] at hf ⊢
            simp only [List.length_append, htl] at hf
            have hcons : (b :: r).take (DecodeRune (b :: r)).2
                = b :: r.take ((DecodeRune (b :: r)).2 - 1) := by
              obtain ⟨k, hk⟩ : ∃ k, (DecodeRune (b :: r)).2 = k + 1 :=
                ⟨(DecodeRune (b :: r)).2 - 1, by omega⟩
              rw [hk, List.take_succ_cons]
              rfl
            have hq2 := hq (encodeLoop n ((b :: r).drop (DecodeRune (b :: r)).2) ++ 0x22 :: rest)
            have hdq : ((b :: r).take (DecodeRune (b :: r)).2
                ++ (encodeLoop n ((b :: r).drop (DecodeRune (b :: r)).2) ++ 0x22 :: rest)).drop
                  (DecodeRune (b :: r)).2
                = encodeLoop n ((b :: r).drop (DecodeRune (b :: r)).2) ++ 0x22 :: rest :=
              List.drop_left' htl
            rw [List.append_assoc]
            rw [hcons] at hq2 hdq ⊢
            rw [List.cons_append] at hq2 hdq ⊢
            rw [unquoteLoop_multi f b _ hb, hq2, hdq, ih _ f hdrop (by omega), prepend_some,
              henc, hcons]

/-! ## JSON objects -/

theorem parseString_encodeString (s rest : GoString) :
    parseString (encodeString s ++ rest) = some (coerce s, rest) := by
  unfold encodeString coerce
  simp only [List.cons_append, List.append_assoc, List.singleton_append, parseString]
  exact unquoteLoop_encodeLoop s.length s rest _ (le_refl _) (by simp; omega)

theorem coerceLoop_valid (n : Nat) (s : GoString) (h : validLoop n s = true) :
    coerceLoop n s = s := by
  induction n generalizing s with
  | zero =>
    cases s with
    | nil => rfl
    | cons b r => simp [validLoop] at h
  | succ n ih =>
    cases s with
    | nil => rfl
    | cons b r =>
      simp only [validLoop] at h
      simp only [coerceLoop]
      by_cases hb : b < 0x80
      · simp only [hb, if_true] at h ⊢
        rw [ih r h]
      · simp only [hb, if_false] at h ⊢
        by_cases hinv : (DecodeRune (b :: r)).2 = 1
        · simp [hinv] at h
        · simp only [hinv, if_false] at h ⊢
          rw [ih _ h, List.take_append_drop]

theorem coerce_valid (s : GoString) (h : ValidString s = true) : coerce s = s :=
  coerceLoop_valid s.length s h

theorem encodeString_cons (s : GoString) :
    encodeString s = 0x22 :: (encodeLoop s.length s ++ [0x22]) := rfl

theorem skipSpace_encodeString (s rest : GoString) :
    skipSpace (encodeString s ++ rest) = encodeString s ++ rest := by
  simp [encodeString_cons, skipSpace, isSpace]

theorem parseValue_string (f : Nat) (s rest : GoString) :
    parseValue (f + 1) (encodeString s ++ rest) = some (.string (coerce s), rest) := by
  have h := parseString_encodeString s rest
  rw [encodeString_cons] at h ⊢
  simp only [List.cons_append, List.append_assoc, List.nil_append] at h ⊢
  simp only [parseValue]
  simp [h]

theorem marshalMembers_cons_cons (kv kv2 : GoString × GoString)
    (ms : List (GoString × GoString)) :
    marshalMembers (kv :: kv2 :: ms)
      = encodeString kv.1 ++ [0x3A] ++ encodeString kv.2 ++ [0x2C]
          ++ marshalMembers (kv2 :: ms) := by
  cases kv; rfl

theorem marshalMembers_single (kv : GoString × GoString) :
    marshalMembers [kv] = encodeString kv.1 ++ [0x3A] ++ encodeString kv.2 := by
  cases kv; rfl

theorem skipSpace_marshalMembers (kv : GoString × GoString) (ms : List (GoString × GoString))
    (rest : GoString) :
    skipSpace (marshalMembers (kv :: ms) ++ rest) = marshalMembers (kv :: ms) ++ rest := by
  cases ms with
  | nil =>
    rw [marshalMembers_single]
    simp only [List.append_assoc]
    exact skipSpace_encodeString _ _
  | cons kv2 ms =>
    rw [marshalMembers_cons_cons]
    simp only [List.append_assoc]
    exact skipSpace_encodeString _ _

theorem parseMembers_last (f : Nat) (k v tail r3 : GoString)
    (ht : skipSpace tail = 0x7D :: r3) :
    parseMembers (f + 2) (encodeString k ++ [0x3A] ++ encodeString v ++ tail)
      = some ([(coerce k, .string (coerce v))], r3) := by
  conv_lhs => unfold parseMembers
  simp only [List.append_assoc, parseString_encodeString, List.cons_append, List.nil_append]
  have h1 : skipSpace (0x3A :: (encodeString v ++ tail)) = 0x3A :: (encodeString v ++ tail) := by
    simp [skipSpace, isSpace]
  simp only [h1, skipSpace_encodeString, parseValue_string, ht]

theorem parseMembers_more (f : Nat) (k v tail r3 : GoString)
    (ht : skipSpace tail = 0x2C :: r3) :
    parseMembers (f + 2) (encodeString k ++ [0x3A] ++ encodeString v ++ tail)
      = (parseMembers (f + 1) (skipSpace r3)).map fun p =>
          ((coerce k, .string (coerce v)) :: p.1, p.2) := by
  conv_lhs => unfold parseMembers
  simp only [List.append_assoc, parseString_encodeString, List.cons_append, List.nil_append]
  have h1 : skipSpace (0x3A :: (encodeString v ++ tail)) = 0x3A :: (encodeString v ++ tail) := by
    simp [skipSpace, isSpace]
  simp only [h1, skipSpace_encodeString, parseValue_string, ht]
  cases parseMembers (f + 1) (skipSpace r3) with
  | none => rfl
  | some p => rfl

theorem parseMembers_marshalMembers (ms : List (GoString × GoString)) (kv : GoString × GoString)
    (f : Nat) (rest : GoString) (hf : ms.length + 2 ≤ f) :
    parseMembers f (marshalMembers (kv :: ms) ++ 0x7D :: rest)
      = some ((kv :: ms).map readBack, rest) := by
  induction ms generalizing kv f with
  | nil =>
    obtain ⟨f, rfl⟩ : ∃ g, f = g + 2 := ⟨f - 2, by simp at hf; omega⟩
    rw [marshalMembers_single, parseMembers_last f _ _ _ rest (by simp [skipSpace, isSpace])]
    rfl
  | cons kv2 ms ih =>
    obtain ⟨f, rfl⟩ : ∃ g, f = g + 2 := ⟨f - 2, by simp at hf; omega⟩
    rw [marshalMembers_cons_cons]
    simp only [List.append_assoc]
    rw [← List.append_assoc, ← List.append_assoc,
      parseMembers_more f _ _ _ (marshalMembers (kv2 :: ms) ++ 0x7D :: rest)
        (by simp [skipSpace, isSpace]),
      skipSpace_marshalMembers, ih kv2 (f + 1) (by simp at hf ⊢; omega)]
    rfl

/-! ## The JSON text of a user -/

theorem marshalMembers_length (ms : List (GoString × GoString)) :
    5 * ms.length ≤ (marshalMembers ms).length := by
  induction ms with
  | nil => simp
  | cons kv ms ih =>
    cases ms with
    | nil =>
      rw [marshalMembers_single]
      simp [encodeString_cons]
      omega
    | cons kv2 ms =>
      rw [marshalMembers_cons_cons]
      simp only [List.length_append, encodeString_cons, List.length_cons, List.length_nil] at ih ⊢
      omega

theorem parseJSON_Marshal (u : UserObject) :
    parseJSON (Marshal u) = some (.object ((userFields.zip u.values).map readBack)) := by
  have hz : userFields.zip u.values
      = (utf8 "UserID", u.UserID) :: (userFields.zip u.values).tail := rfl
  have hlen : (userFields.zip u.values).tail.length = 9 := rfl
  have hml := marshalMembers_length (userFields.zip u.values)
  have hl10 : (userFields.zip u.values).length = 10 := rfl
  unfold parseJSON Marshal
  have hsk : skipSpace ([0x7B] ++ marshalMembers (userFields.zip u.values) ++ [0x7D])
      = 0x7B :: (marshalMembers (userFields.zip u.values) ++ [0x7D]) := by
    simp [skipSpace, isSpace]
  rw [hsk]
  have hpm := parseMembers_marshalMembers (userFields.zip u.values).tail (utf8 "UserID", u.UserID)
    ([0x7B] ++ marshalMembers (userFields.zip u.values) ++ [0x7D]).length [] (by
      simp only [List.length_append, List.length_cons, List.length_nil]
      omega)
  rw [← hz] at hpm
  have hsk2 : skipSpace (marshalMembers (userFields.zip u.values) ++ [0x7D])
      = marshalMembers (userFields.zip u.values) ++ [0x7D] := by
    rw [hz]; exact skipSpace_marshalMembers _ _ _
  have hhead : ∃ X, marshalMembers (userFields.zip u.values) ++ [0x7D] = 0x22 :: X := by
    rw [hz]
    cases h : (userFields.zip u.values).tail with
    | nil => rw [h] at hlen; simp at hlen
    | cons kv2 ms => rw [marshalMembers_cons_cons]; exact ⟨_, rfl⟩
  obtain ⟨X, hX⟩ := hhead
  simp only [parseValue]
  rw [hsk2]
  rw [hX] at hpm ⊢
  simp only [Nat.reduceEqDiff, if_true, hpm]
  simp [skipSpace]


theorem coerce_userFields :
    coerce (utf8 "UserID") = utf8 "UserID" ∧ coerce (utf8 "RecType") = utf8 "RecType" ∧
    coerce (utf8 "Name") = utf8 "Name" ∧ coerce (utf8 "UserType") = utf8 "UserType" ∧
    coerce (utf8 "Address") = utf8 "Address" ∧ coerce (utf8 "Phone") = utf8 "Phone" ∧
    coerce (utf8 "Email") = utf8 "Email" ∧ coerce (utf8 "Bank") = utf8 "Bank" ∧
    coerce (utf8 "AccountNo") = utf8 "AccountNo" ∧
    coerce (utf8 "RoutingNo") = utf8 "RoutingNo" := by
  decide

theorem findField_userFields :
    findField (utf8 "UserID") = some 0 ∧ findField (utf8 "RecType") = some 1 ∧
    findField (utf8 "Name") = some 2 ∧ findField (utf8 "UserType") = some 3 ∧
    findField (utf8 "Address") = some 4 ∧ findField (utf8 "Phone") = some 5 ∧
    findField (utf8 "Email") = some 6 ∧ findField (utf8 "Bank") = some 7 ∧
    findField (utf8 "AccountNo") = some 8 ∧ findField (utf8 "RoutingNo") = some 9 := by
  decide

theorem userFields_ne_RecTYpe : ∀ k ∈ userFields, (utf8 "RecTYpe" != k) = true := by decide

/-- The members `json.Unmarshal` reads from the JSON text of `u`: the ten field names
with the field values, each read back as a string. -/
theorem readBack_user (u : UserObject) :
    (userFields.zip u.values).map readBack
      = (userFields.zip u.coerced.values).map fun p => (p.1, JVal.string p.2) := by
  obtain ⟨h0, h1, h2, h3, h4, h5, h6, h7, h8, h9⟩ := coerce_userFields
  simp only [userFields, UserObject.values, UserObject.coerced, List.zip_cons_cons,
    List.zip_nil_right, List.map_cons, List.map_nil, readBack, h0, h1, h2, h3, h4, h5, h6, h7,
    h8, h9]

theorem storeMembers_user (v u0 : UserObject) :
    storeMembers ((userFields.zip v.values).map fun p => (p.1, JVal.string p.2)) (u0, none)
      = (v, none) := by
  obtain ⟨h0, h1, h2, h3, h4, h5, h6, h7, h8, h9⟩ := findField_userFields
  simp only [userFields, UserObject.values, List.zip_cons_cons, List.zip_nil_right,
    List.map_cons, List.map_nil, storeMembers, h0, h1, h2, h3, h4, h5, h6, h7, h8, h9,
    UserObject.set]

theorem overflowsMembers_strings (ms : List (GoString × GoString)) :
    overflowsMembers (ms.map fun p => (p.1, JVal.string p.2)) = false := by
  induction ms with
  | nil => rfl
  | cons p ms ih => simp [overflowsMembers, JVal.overflows, ih]

theorem JsonToUser_Marshal (u : UserObject) : JsonToUser (Marshal u) = (u.coerced, none) := by
  simp only [JsonToUser, UnmarshalUser, parseJSON_Marshal, readBack_user, storeMembers_user]

theorem UnmarshalMap_Marshal (u : UserObject) :
    UnmarshalMap (Marshal u)
      = .ok (some ((userFields.zip u.coerced.values).map fun p => (p.1, JVal.string p.2))) := by
  simp only [UnmarshalMap, parseJSON_Marshal, readBack_user, overflowsMembers_strings]
  rfl

theorem mapIndex_Marshal (u : UserObject) :
    mapIndex (some ((userFields.zip u.coerced.values).map fun p => (p.1, JVal.string p.2)))
      (utf8 "RecTYpe") = none := by
  simp only [mapIndex]
  rw [List.lookup_eq_none_iff]
  intro p hp
  rw [List.mem_reverse, List.mem_map] at hp
  obtain ⟨q, hq, rfl⟩ := hp
  exact userFields_ne_RecTYpe q.1 (List.of_mem_zip hq).1

/-- The JSON text `PostUser` stores has no member `RecTYpe`: on it, for every user,
`ProcessQueryResult` panics on its type assertion. -/
theorem ProcessQueryResult_Marshal (stub : Stub) (u : UserObject) (args : List GoString) :
    ProcessQueryResult stub (Marshal u) args = .panic .typeAssertion := by
  simp only [ProcessQueryResult, UnmarshalMap_Marshal, mapIndex_Marshal]

theorem coerced_valid (u : UserObject) (h : ∀ f ∈ u.values, ValidString f = true) :
    u.coerced = u := by
  simp only [UserObject.values, List.mem_cons, List.mem_singleton, forall_eq_or_imp,
    forall_eq, List.not_mem_nil, false_implies, implies_true, and_true] at h
  obtain ⟨h0, h1, h2, h3, h4, h5, h6, h7, h8, h9⟩ := h
  simp only [UserObject.coerced, coerce_valid _ h0, coerce_valid _ h1, coerce_valid _ h2,
    coerce_valid _ h3, coerce_valid _ h4, coerce_valid _ h5, coerce_valid _ h6,
    coerce_valid _ h7, coerce_valid _ h8, coerce_valid _ h9]

/-- C9, as amended: for every `UserObject` whose ten fields are valid UTF-8,
`UserToJson` succeeds with bytes from which `JsonToUser` returns, with no error, a
`UserObject` equal to it in every field. -/
theorem UserToJson_JsonToUser (u : UserObject) (h : ∀ f ∈ u.values, ValidString f = true) :
    UserToJson u = (Marshal u, none) ∧ JsonToUser (UserToJson u).1 = (u, none) := by
  refine ⟨rfl, ?_⟩
  show JsonToUser (Marshal u) = (u, none)
  rw [JsonToUser_Marshal, coerced_valid u h]

/-- C9 at the user of `ashleyArgs`. -/
theorem UserToJson_JsonToUser_witness :
    UserToJson ashley = (Marshal ashley, none) ∧ JsonToUser (UserToJson ashley).1 = (ashley, none) :=
  UserToJson_JsonToUser ashley (by decide)

set_option maxRecDepth 100000 in
/-- C9, counterexample: for the user whose name is the byte `0xFF`, `UserToJson` and
`JsonToUser` both succeed, but the user read back has the name U+FFFD, three bytes,
and so differs from the one written. -/
theorem UserToJson_JsonToUser_counterexample :
    (UserToJson badUser).2 = none ∧ (JsonToUser (UserToJson badUser).1).2 = none ∧
    (JsonToUser (UserToJson badUser).1).1.Name = [0xEF, 0xBF, 0xBD] ∧
    (JsonToUser (UserToJson badUser).1).1 ≠ badUser := by
  decide

/-! ## Posting a user and getting it back -/

theorem lookup_filter_of_ne (k k2 : GoString) (rows : List (GoString × Row)) (h : k ≠ k2) :
    (rows.filter fun e => e.1 ≠ k2).lookup k = rows.lookup k := by
  induction rows with
  | nil => rfl
  | cons e rows ih =>
    obtain ⟨k3, r3⟩ := e
    simp only [ne_eq, decide_not] at ih ⊢
    by_cases h3 : k3 = k2
    · subst h3
      have hb : (k == k3) = false := by simpa using h
      simp [List.filter, List.lookup, hb, ih]
    · by_cases h4 : k = k3
      · subst h4
        simp [List.filter, h3, List.lookup]
      · have hb : (k == k3) = false := by simpa using h4
        simp [List.filter, h3, List.lookup, hb, ih]

theorem lookup_putRow_of_ne (k k2 : GoString) (r : Row) (rows : List (GoString × Row))
    (h : k ≠ k2) : (putRow k2 r rows).lookup k = rows.lookup k := by
  have hb : (k == k2) = false := by simpa using h
  simp only [putRow, List.lookup, hb]
  exact lookup_filter_of_ne k k2 rows h

theorem keyOf_UserTable_ne (a b : List GoString) :
    keyOf (utf8 "UserTable") a ≠ keyOf (utf8 "UserCatTable") b := by
  have h1 : Itoa (utf8 "UserTable").length ++ utf8 "UserTable" = 0x39 :: utf8 "UserTable" := by
    decide
  have h2 : Itoa (utf8 "UserCatTable").length ++ utf8 "UserCatTable"
      = 0x31 :: 0x32 :: utf8 "UserCatTable" := by decide
  unfold keyOf keyString
  rw [h1, h2]
  intro h
  simp at h

theorem CreateUserObject_ok (args : List GoString) (user : UserObject)
    (h : CreateUserObject args = (user, none)) :
    ∃ a0 a1 a2 a3 a4 a5 a6 a7 a8 a9, args = [a0, a1, a2, a3, a4, a5, a6, a7, a8, a9] ∧
      user = ⟨a0, a1, a2, a3, a4, a5, a6, a7, a8, a9⟩ := by
  unfold CreateUserObject at h
  split at h
  · rename_i a0 a1 a2 a3 a4 a5 a6 a7 a8 a9
    refine ⟨a0, a1, a2, a3, a4, a5, a6, a7, a8, a9, rfl, ?_⟩
    cases ha : Atoi a0 with
    | error e => simp [ha] at h
    | ok v =>
      simp only [ha] at h
      simpa using h.symm
  · simp at h

theorem GetNumberOfKeys_UserTable : GetNumberOfKeys (utf8 "UserTable") = 1 := by decide

theorem GetNumberOfKeys_UserCatTable : GetNumberOfKeys (utf8 "UserCatTable") = 3 := by decide

/-- C1, the failing inputs: on a ledger whose tables were created by `InitLedger`,
whenever `PostUser` succeeds with the bytes `b`, those bytes are stored in the row of
`UserTable` under the user id, and `GetUser` on the same user id afterwards, directly
or through `Query`, does not return them: it panics. The JSON text of a user names its
record type `RecType`, and `ProcessQueryResult` asserts that the member `RecTYpe` is a
string. -/
theorem PostUser_then_GetUser_panics (stub stub1 : Stub) (function function2 b : GoString)
    (args : List GoString) (hs : stub.Sound)
    (h : PostUser stub function args = (.done (b, none), stub1)) :
    ∃ a0 rest, args = a0 :: rest ∧
      stub1.rows.lookup (keyOf (utf8 "UserTable") [a0]) = some (rowOf [a0] b) ∧
      (GetUser stub1 function2 [a0]).1 = .panic .typeAssertion ∧
      (Query stub1 (utf8 "GetUser") [a0]).1 = .panic .typeAssertion := by
  unfold PostUser at h
  rcases hc : CreateUserObject args with ⟨user, e⟩
  rw [hc] at h
  cases e with
  | some e => simp at h
  | none =>
    obtain ⟨a0, a1, a2, a3, a4, a5, a6, a7, a8, a9, rfl, -⟩ := CreateUserObject_ok args user hc
    have hj : UserToJson user = (Marshal user, none) := rfl
    simp only [hj, index, List.get?_cons_zero, List.get?_cons_succ] at h
    rcases h1 : UpdateLedger stub (utf8 "UserTable") [a0] (Marshal user) with ⟨r1, s1⟩
    rw [h1] at h
    cases r1 with
    | panic p => simp at h
    | done e1 =>
      cases e1 with
      | some e => simp at h
      | none =>
        simp only at h
        rcases h2 : UpdateLedger s1 (utf8 "UserCatTable") [utf8 "2017", a3, a0] (Marshal user)
          with ⟨r2, s2⟩
        rw [h2] at h
        cases r2 with
        | panic p => simp at h
        | done e2 =>
          cases e2 with
          | some e => simp at h
          | none =>
            simp only [Prod.mk.injEq, Run.done.injEq, and_true] at h
            obtain ⟨rfl, rfl⟩ := h
            obtain ⟨_, rfl⟩ := UpdateLedger_ok stub s1 (utf8 "UserTable") [a0] (Marshal user)
              (by decide) GetNumberOfKeys_UserTable.symm hs h1
            have hs1 : Stub.Sound { stub with
                calls := stub.calls ++ [.InsertRow (utf8 "UserTable") (rowOf [a0] (Marshal user))]
                rows := putRow (keyOf (utf8 "UserTable") [a0]) (rowOf [a0] (Marshal user))
                  stub.rows } := hs
            obtain ⟨_, rfl⟩ := UpdateLedger_ok _ s2 (utf8 "UserCatTable") [utf8 "2017", a3, a0]
              (Marshal user) (by decide) GetNumberOfKeys_UserCatTable.symm hs1 h2
            have hrow : (putRow (keyOf (utf8 "UserCatTable") [utf8 "2017", a3, a0])
                (rowOf [utf8 "2017", a3, a0] (Marshal user))
                (putRow (keyOf (utf8 "UserTable") [a0]) (rowOf [a0] (Marshal user))
                  stub.rows)).lookup (keyOf (utf8 "UserTable") [a0])
                  = some (rowOf [a0] (Marshal user)) := by
              rw [lookup_putRow_of_ne _ _ _ _ (keyOf_UserTable_ne _ _), lookup_putRow]
            have hq := QueryFromLedger_found
              { tables := stub.tables
                rows := putRow (keyOf (utf8 "UserCatTable") [utf8 "2017", a3, a0])
                  (rowOf [utf8 "2017", a3, a0] (Marshal user))
                  (putRow (keyOf (utf8 "UserTable") [a0]) (rowOf [a0] (Marshal user)) stub.rows)
                calls := stub.calls
                  ++ [.InsertRow (utf8 "UserTable") (rowOf [a0] (Marshal user))]
                  ++ [.InsertRow (utf8 "UserCatTable")
                      (rowOf [utf8 "2017", a3, a0] (Marshal user))] }
              (utf8 "UserTable") [a0] (Marshal user) (by decide)
              GetNumberOfKeys_UserTable.symm hrow
            rw [ProcessQueryResult_Marshal] at hq
            refine ⟨a0, _, rfl, hrow, ?_, ?_⟩
            · simp only [GetUser, hq]
            · have hqf : QueryFunction (utf8 "GetUser") = some GetUser := rfl
              simp only [Query, index, List.get?_cons_zero, hqf, GetUser, hq]
              simp

set_option maxRecDepth 100000 in
/-- C1 on the ledger `initStub` with its ten tables, for the user of `ashleyArgs`. -/
theorem PostUser_then_GetUser_panics_witness :
    ∃ a0 rest, ashleyArgs = a0 :: rest ∧
      (PostUser initStub (utf8 "PostUser") ashleyArgs).2.rows.lookup
          (keyOf (utf8 "UserTable") [a0]) = some (rowOf [a0] (Marshal ashley)) ∧
      (GetUser (PostUser initStub (utf8 "PostUser") ashleyArgs).2 (utf8 "GetUser") [a0]).1
        = .panic .typeAssertion ∧
      (Query (PostUser initStub (utf8 "PostUser") ashleyArgs).2 (utf8 "GetUser") [a0]).1
        = .panic .typeAssertion :=
  PostUser_then_GetUser_panics initStub (PostUser initStub (utf8 "PostUser") ashleyArgs).2
    (utf8 "PostUser") (utf8 "GetUser") (Marshal ashley) ashleyArgs Sound_initStub
    (Prod.ext (by decide) rfl)

/-! ## No scan over a key prefix -/

theorem ProcessQueryResult_irrelevant (stub stub2 : Stub) (b : GoString)
    (args args2 : List GoString) :
    ProcessQueryResult stub b args = ProcessQueryResult stub2 b args2 := rfl

theorem insertRowInternal_calls (stub : Stub) (T : GoString) (row : Row) (update : Bool) :
    (stub.insertRowInternal T row update).2.2.calls = stub.calls := by
  unfold Stub.insertRowInternal
  cases stub.getTable T with
  | error e => rfl
  | ok defs =>
    simp only []
    cases getKeyAndVerifyRow T defs row with
    | error e => rfl
    | ok key =>
      simp only []
      cases buildKeyString T key with
      | error e => rfl
      | ok k =>
        simp only []
        split <;> rfl

theorem UpdateLedger_calls (stub : Stub) (T : GoString) (K : List GoString) (V : GoString) :
    (UpdateLedger stub T K V).2.calls = stub.calls ∨
    ∃ row, (UpdateLedger stub T K V).2.calls = stub.calls ++ [.InsertRow T row] := by
  simp only [UpdateLedger]
  cases columnsLoop K (GetNumberOfKeys T) 0 [] with
  | panic p => exact .inl rfl
  | done columns =>
    refine .inr ⟨⟨columns ++ [.Bytes V]⟩, ?_⟩
    simp only [Stub.InsertRow]
    have ht := insertRowInternal_calls
      { stub with calls := stub.calls ++ [.InsertRow T ⟨columns ++ [.Bytes V]⟩] } T
      ⟨columns ++ [.Bytes V]⟩ false
    generalize Stub.insertRowInternal
      { stub with calls := stub.calls ++ [.InsertRow T ⟨columns ++ [.Bytes V]⟩] } T
      ⟨columns ++ [.Bytes V]⟩ false = r at ht
    obtain ⟨ok, e, s1⟩ := r
    simp only at ht
    cases e with
    | some e => cases ok <;> exact ht
    | none =>
      cases ok with
      | true => exact ht
      | false =>
        simp only []
        cases index K 0 <;> exact ht

theorem PostUser_calls (stub : Stub) (function : GoString) (args : List GoString) :
    ∃ new, (PostUser stub function args).2.calls = stub.calls ++ new ∧
      ∀ c ∈ new, ∃ T row, c = Call.InsertRow T row := by
  unfold PostUser
  rcases CreateUserObject args with ⟨user, e⟩
  cases e with
  | some e => exact ⟨[], by simp, by simp⟩
  | none =>
    simp only []
    rcases UserToJson user with ⟨userbyte, e⟩
    cases e with
    | some e =>
      simp only []
      cases index args 1 <;> exact ⟨[], by simp, by simp⟩
    | none =>
      simp only []
      cases index args 0 with
      | panic p => exact ⟨[], by simp, by simp⟩
      | done a0 =>
        simp only []
        have h1 := UpdateLedger_calls stub (utf8 "UserTable") [a0] userbyte
        generalize UpdateLedger stub (utf8 "UserTable") [a0] userbyte = u1 at h1 ⊢
        obtain ⟨r1, s1⟩ := u1
        simp only at h1
        have h1' : ∃ new, s1.calls = stub.calls ++ new ∧
            ∀ c ∈ new, ∃ T row, c = Call.InsertRow T row := by
          rcases h1 with h1 | ⟨row, h1⟩
          · exact ⟨[], by simp [h1], by simp⟩
          · exact ⟨[.InsertRow _ row], h1, by simp⟩
        cases r1 with
        | panic p => exact h1'
        | done e1 =>
          cases e1 with
          | some e => exact h1'
          | none =>
            simp only []
            cases index args 3 with
            | panic p => exact h1'
            | done a3 =>
              simp only []
              have h2 := UpdateLedger_calls s1 (utf8 "UserCatTable") [utf8 "2017", a3, a0] userbyte
              generalize UpdateLedger s1 (utf8 "UserCatTable") [utf8 "2017", a3, a0] userbyte
                = u2 at h2 ⊢
              obtain ⟨r2, s2⟩ := u2
              simp only at h2
              obtain ⟨new, hn, hall⟩ := h1'
              have h2' : ∃ new, s2.calls = stub.calls ++ new ∧
                  ∀ c ∈ new, ∃ T row, c = Call.InsertRow T row := by
                rcases h2 with h2 | ⟨row, h2⟩
                · exact ⟨new, by rw [h2, hn], hall⟩
                · refine ⟨new ++ [.InsertRow _ row], by rw [h2, hn, List.append_assoc], ?_⟩
                  intro c hc
                  rcases List.mem_append.1 hc with hc | hc
                  · exact hall c hc
                  · exact ⟨_, _, List.mem_singleton.1 hc⟩
              cases r2 with
              | panic p => exact h2'
              | done e2 => cases e2 <;> exact h2'

theorem Invoke_calls (stub : Stub) (function : GoString) (args : List GoString) :
    ∃ new, (Invoke stub function args).2.calls = stub.calls ++ new ∧
      ∀ c ∈ new, ∃ T row, c = Call.InsertRow T row := by
  unfold Invoke
  split
  · unfold InvokeFunction
    split_ifs
    · exact PostUser_calls stub function args
    · exact ⟨[], by simp, by simp⟩
  · cases index args 0 <;> exact ⟨[], by simp, by simp⟩

theorem PostUser_result (stub : Stub) (function r : GoString) (args : List GoString)
    (h : (PostUser stub function args).1 = .done (r, none)) :
    r = (UserToJson (CreateUserObject args).1).1 := by
  unfold PostUser at h
  rcases hc : CreateUserObject args with ⟨user, e⟩
  rw [hc] at h
  cases e with
  | some e => simp at h
  | none =>
    simp only [] at h ⊢
    rcases hj : UserToJson user with ⟨userbyte, e⟩
    rw [hj] at h
    cases e with
    | some e =>
      simp only [] at h
      cases hi : index args 1 <;> simp [hi] at h
    | none =>
      simp only [] at h ⊢
      cases hi : index args 0 with
      | panic p => simp [hi] at h
      | done a0 =>
        simp only [hi] at h
        rcases h1 : UpdateLedger stub (utf8 "UserTable") [a0] userbyte with ⟨r1, s1⟩
        rw [h1] at h
        cases r1 with
        | panic p => simp at h
        | done e1 =>
          cases e1 with
          | some e => simp at h
          | none =>
            simp only [] at h
            cases hi3 : index args 3 with
            | panic p => simp [hi3] at h
            | done a3 =>
              simp only [hi3] at h
              rcases h2 : UpdateLedger s1 (utf8 "UserCatTable") [utf8 "2017", a3, a0] userbyte
                with ⟨r2, s2⟩
              rw [h2] at h
              cases r2 with
              | panic p => simp at h
              | done e2 =>
                cases e2 with
                | some e => simp at h
                | none =>
                  simp only [Run.done.injEq, Prod.mk.injEq, and_true] at h
                  exact h.symm

theorem Invoke_result (stub : Stub) (function r : GoString) (args : List GoString)
    (h : (Invoke stub function args).1 = .done (r, none)) :
    r = [] ∨ r = (UserToJson (CreateUserObject args).1).1 := by
  unfold Invoke at h
  split at h
  · unfold InvokeFunction at h
    split_ifs at h
    · exact .inr (PostUser_result stub function r args h)
    · simp only [Run.done.injEq, Prod.mk.injEq, and_true] at h
      exact .inl h.symm
  · cases hi : index args 0 <;> simp [hi] at h

theorem GetRow_row (stub stub2 : Stub) (T : GoString) (key : List Column)
    (h : stub2.rows.lookup (keyString T key) = stub.rows.lookup (keyString T key)) :
    (stub2.GetRow T key).1 = (stub.GetRow T key).1 := by
  cases T with
  | nil => rfl
  | cons c cs =>
    simp only [Stub.GetRow, buildKeyString_ok (c :: cs) key (List.cons_ne_nil _ _), h]
    cases stub.rows.lookup (keyString (c :: cs) key) <;> rfl

theorem QueryFromLedger_row (stub stub2 : Stub) (T : GoString) (K : List GoString)
    (h : stub2.rows.lookup (keyOf T (K.take (GetNumberOfKeys T)))
      = stub.rows.lookup (keyOf T (K.take (GetNumberOfKeys T)))) :
    (QueryFromLedger stub2 T K).1 = (QueryFromLedger stub T K).1 := by
  by_cases hle : GetNumberOfKeys T ≤ K.length
  · have hg := GetRow_row stub stub2 T ((K.take (GetNumberOfKeys T)).map .String_) h
    simp only [QueryFromLedger, columnsLoop_take K _ hle]
    generalize stub2.GetRow T ((K.take (GetNumberOfKeys T)).map .String_) = g2 at hg ⊢
    generalize stub.GetRow T ((K.take (GetNumberOfKeys T)).map .String_) = g1 at hg ⊢
    obtain ⟨row2, e2, s2⟩ := g2
    obtain ⟨row1, e1, s1⟩ := g1
    simp only at hg
    subst hg
    simp only []
    split
    · cases index K 0 <;> rfl
    · cases row2.Columns.get? (GetNumberOfKeys T) with
      | none => rfl
      | some col =>
        simp only []
        rw [ProcessQueryResult_irrelevant s2 s1 col.GetBytes K K]
        cases ProcessQueryResult s1 col.GetBytes K with
        | panic p => rfl
        | done e =>
          cases e with
          | none => rfl
          | some e =>
            simp only []
            cases index K 1 with
            | panic p => rfl
            | done a1 =>
              simp only []
              cases index K 0 <;> rfl
  · simp [QueryFromLedger, columnsLoop_short K (GetNumberOfKeys T) (by omega)]

theorem GetUser_row (stub stub2 : Stub) (function : GoString) (args : List GoString)
    (h : stub2.rows.lookup (keyOf (utf8 "UserTable") (args.take 1))
      = stub.rows.lookup (keyOf (utf8 "UserTable") (args.take 1))) :
    (GetUser stub2 function args).1 = (GetUser stub function args).1 := by
  have hq := QueryFromLedger_row stub stub2 (utf8 "UserTable") args
    (by rw [GetNumberOfKeys_UserTable]; exact h)
  unfold GetUser
  generalize QueryFromLedger stub2 (utf8 "UserTable") args = q2 at hq ⊢
  generalize QueryFromLedger stub (utf8 "UserTable") args = q1 at hq ⊢
  obtain ⟨r2, s2⟩ := q2
  obtain ⟨r1, s1⟩ := q1
  simp only at hq
  subst hq
  cases r2 with
  | panic p => rfl
  | done v =>
    obtain ⟨databytes, e⟩ := v
    cases e with
    | some e =>
      simp only []
      cases index args 0 <;> rfl
    | none =>
      simp only []
      split
      · cases index args 0 <;> rfl
      · rfl

theorem Query_row (stub stub2 : Stub) (function : GoString) (args : List GoString)
    (h : stub2.rows.lookup (keyOf (utf8 "UserTable") (args.take 1))
      = stub.rows.lookup (keyOf (utf8 "UserTable") (args.take 1))) :
    (Query stub2 function args).1 = (Query stub function args).1 := by
  have hq := GetUser_row stub stub2 function args h
  unfold Query
  cases index args 0 with
  | panic p => rfl
  | done a0 =>
    simp only []
    split
    · rfl
    · unfold QueryFunction
      split_ifs
      · simp only []
        generalize GetUser stub2 function args = q2 at hq ⊢
        generalize GetUser stub function args = q1 at hq ⊢
        obtain ⟨r2, s2⟩ := q2
        obtain ⟨r1, s1⟩ := q1
        simp only at hq
        subst hq
        cases r2 with
        | panic p => rfl
        | done v =>
          obtain ⟨result, e⟩ := v
          cases e <;> rfl
      · rfl

theorem GetUser_stub (stub : Stub) (function : GoString) (args : List GoString)
    (h : 1 ≤ args.length) :
    (GetUser stub function args).2
      = { stub with calls := stub.calls
            ++ [.GetRow (utf8 "UserTable") ((args.take 1).map .String_)] } := by
  have hq := QueryFromLedger_stub stub (utf8 "UserTable") args
    (by rw [GetNumberOfKeys_UserTable]; exact h)
  rw [GetNumberOfKeys_UserTable] at hq
  unfold GetUser
  generalize QueryFromLedger stub (utf8 "UserTable") args = q1 at hq ⊢
  obtain ⟨r1, s1⟩ := q1
  simp only at hq
  subst hq
  cases r1 with
  | panic p => rfl
  | done v =>
    obtain ⟨databytes, e⟩ := v
    cases e with
    | some e =>
      simp only []
      cases index args 0 <;> rfl
    | none =>
      simp only []
      split
      · cases index args 0 <;> rfl
      · rfl

theorem Query_stub (stub : Stub) (function : GoString) (args : List GoString) :
    (Query stub function args).2 = stub ∨
    (function = utf8 "GetUser" ∧
      (Query stub function args).2
        = { stub with calls := stub.calls
              ++ [.GetRow (utf8 "UserTable") ((args.take 1).map .String_)] }) := by
  unfold Query
  cases hi : index args 0 with
  | panic p => exact .inl rfl
  | done a0 =>
    have hlen : 1 ≤ args.length := by
      cases args with
      | nil => simp [index] at hi
      | cons a as => simp
    simp only []
    split
    · exact .inl rfl
    · unfold QueryFunction
      split_ifs with hf
      · refine .inr ⟨hf, ?_⟩
        have hg := GetUser_stub stub function args hlen
        simp only []
        generalize GetUser stub function args = q1 at hg ⊢
        obtain ⟨r1, s1⟩ := q1
        simp only at hg
        subst hg
        cases r1 with
        | panic p => rfl
        | done v =>
          obtain ⟨result, e⟩ := v
          cases e <;> rfl
      · exact .inl rfl

/-- C8, as amended: the chaincode has no scan over a key prefix. `Query` makes at most
one call to the ledger, a `GetRow` for the row of `UserTable` under the one key
`args[0]`, and only for the function name `GetUser`; its result depends on the ledger
through that one row alone. `Invoke` makes `InsertRow` calls only, and the bytes it
returns are none or the JSON text of its own arguments. `QueryFromLedger` is a point
lookup: with fewer keys than `GetNumberOfKeys(T)`, the empty list included, it panics
on the index `len(keys)` before any call to the ledger; with that many keys or more it
issues one `GetRow` call for the row of the first `GetNumberOfKeys(T)` keys and no
other call, and its result depends on the ledger through that one row alone. -/
theorem no_scan (stub stub2 : Stub) (function T : GoString) (args keys : List GoString) :
    ((Query stub function args).2 = stub ∨
      (function = utf8 "GetUser" ∧
        (Query stub function args).2
          = { stub with calls := stub.calls
                ++ [.GetRow (utf8 "UserTable") ((args.take 1).map .String_)] })) ∧
    (stub2.rows.lookup (keyOf (utf8 "UserTable") (args.take 1))
        = stub.rows.lookup (keyOf (utf8 "UserTable") (args.take 1)) →
      (Query stub2 function args).1 = (Query stub function args).1) ∧
    (∃ new, (Invoke stub function args).2.calls = stub.calls ++ new ∧
      ∀ c ∈ new, ∃ T2 row, c = Call.InsertRow T2 row) ∧
    (∀ r, (Invoke stub function args).1 = .done (r, none) →
      r = [] ∨ r = (UserToJson (CreateUserObject args).1).1) ∧
    (keys.length < GetNumberOfKeys T →
      QueryFromLedger stub T keys
        = (.panic (.indexOutOfRange keys.length keys.length), stub)) ∧
    (GetNumberOfKeys T ≤ keys.length →
      (QueryFromLedger stub T keys).2
        = { stub with calls := stub.calls
              ++ [.GetRow T ((keys.take (GetNumberOfKeys T)).map .String_)] }) ∧
    (stub2.rows.lookup (keyOf T (keys.take (GetNumberOfKeys T)))
        = stub.rows.lookup (keyOf T (keys.take (GetNumberOfKeys T))) →
      (QueryFromLedger stub2 T keys).1 = (QueryFromLedger stub T keys).1) := by
  refine ⟨Query_stub stub function args, Query_row stub stub2 function args,
    Invoke_calls stub function args, fun r => Invoke_result stub function r args,
    fun h => ?_, QueryFromLedger_stub stub T keys, QueryFromLedger_row stub stub2 T keys⟩
  simp [QueryFromLedger, columnsLoop_short keys _ h]

/-- C8 on the ledger after `PostUser`: with the two-key prefix of the user's row in
`UserCatTable`, `QueryFromLedger` panics before any call to the ledger. -/
theorem no_scan_witness :
    QueryFromLedger postedStub (utf8 "UserCatTable") [utf8 "2017", utf8 "TRD"]
      = (.panic (.indexOutOfRange [utf8 "2017", utf8 "TRD"].length
          [utf8 "2017", utf8 "TRD"].length), postedStub) :=
  (no_scan postedStub postedStub (utf8 "GetUser") (utf8 "UserCatTable") [utf8 "100"]
    [utf8 "2017", utf8 "TRD"]).2.2.2.2.1 (by decide)

theorem postedStub_delete_rows :
    (DeleteFromLedger postedStub (utf8 "UserCatTable") ashleyCatKey).2.rows
      = postedStub.rows.filter fun e => e.1 ≠ keyOf (utf8 "UserCatTable") ashleyCatKey := by
  rw [DeleteFromLedger_nonempty postedStub (utf8 "UserCatTable") ashleyCatKey (by decide)
    (by decide)]

set_option maxRecDepth 100000 in
/-- C8, counterexample: `PostUser` has stored a user under `("2017", "TRD", "100")` in
`UserCatTable`. No query returns anything of that row: for every function name and
argument list, `Query` gives the same on this ledger and on the ledger without the
row, where a scan of `UserCatTable` with the prefix `("2017", "TRD")` would return the
user's payload on the first and nothing on the second. The read of a table there is,
`QueryFromLedger`, returns neither with that prefix nor with the empty prefix: it
panics. -/
theorem no_scan_counterexample :
    (PostUser initStub (utf8 "PostUser") ashleyArgs).1 = .done (Marshal ashley, none) ∧
    postedStub.rows.lookup (keyOf (utf8 "UserCatTable") ashleyCatKey)
      = some (rowOf ashleyCatKey (Marshal ashley)) ∧
    (DeleteFromLedger postedStub (utf8 "UserCatTable") ashleyCatKey).2.rows.lookup
        (keyOf (utf8 "UserCatTable") ashleyCatKey) = none ∧
    (∀ function args,
      (Query postedStub function args).1
        = (Query (DeleteFromLedger postedStub (utf8 "UserCatTable") ashleyCatKey).2
            function args).1) ∧
    (QueryFromLedger postedStub (utf8 "UserCatTable") [utf8 "2017", utf8 "TRD"]).1
      = .panic (.indexOutOfRange 2 2) ∧
    (QueryFromLedger postedStub (utf8 "UserCatTable") []).1
      = .panic (.indexOutOfRange 0 0) := by
  refine ⟨by decide, by decide, by decide, fun function args => ?_, by decide, by decide⟩
  refine Query_row _ _ function args ?_
  rw [postedStub_delete_rows]
  exact (lookup_filter_of_ne _ _ _ (keyOf_UserTable_ne _ _)).symm

/-! ## Insert and get -/

/-- Insert and get go through the type dispatcher: on a ledger whose tables were
created by `InitLedger`, for a registered table `T`, a full key tuple `K` and a value
`V`, once `UpdateLedger(T, K, V)` has succeeded, `QueryFromLedger(T, K)` on the
resulting ledger returns exactly `V` with no error when `ProcessQueryResult(V)`
returns `nil`; it panics when `ProcessQueryResult(V)` panics, and returns no value when
`ProcessQueryResult(V)` returns an error. -/
theorem UpdateLedger_then_QueryFromLedger (stub stub1 : Stub) (T : GoString)
    (K : List GoString) (V : GoString) (hT : T ∈ aucTables)
    (hK : K.length = GetNumberOfKeys T) (hs : stub.Sound)
    (h : UpdateLedger stub T K V = (.done none, stub1)) :
    (ProcessQueryResult stub1 V K = .done none →
      QueryFromLedger stub1 T K = (.done (V, none), afterGetRow stub1 T K)) ∧
    (∀ p, ProcessQueryResult stub1 V K = .panic p →
      QueryFromLedger stub1 T K = (.panic p, afterGetRow stub1 T K)) ∧
    (∀ e, ProcessQueryResult stub1 V K = .done (some e) →
      ∀ v, (QueryFromLedger stub1 T K).1 ≠ .done (v, none)) := by
  have h1 := (aucTables_keys T hT).1
  obtain ⟨-, rfl⟩ := UpdateLedger_ok stub stub1 T K V (ne_nil_of_mem T hT) hK hs h
  have hq := QueryFromLedger_found
    { stub with
      calls := stub.calls ++ [.InsertRow T (rowOf K V)]
      rows := putRow (keyOf T K) (rowOf K V) stub.rows }
    T K V (ne_nil_of_mem T hT) hK (lookup_putRow _ _ _)
  refine ⟨fun hp => ?_, fun p hp => ?_, fun e hp v => ?_⟩
  · rw [hq, ProcessQueryResult_irrelevant _ _ V K K, hp]
  · rw [hq, ProcessQueryResult_irrelevant _ _ V K K, hp]
  · rw [hq, ProcessQueryResult_irrelevant _ _ V K K, hp]
    simp only []
    cases index K 1 with
    | panic p => simp
    | done a1 => cases index K 0 <;> simp

/-- On the ledger `initStub` with its ten tables, the record `bidRecord`, stored in
`UserTable` under the key `1`, is returned as it was stored. -/
theorem UpdateLedger_then_QueryFromLedger_bidRecord :
    QueryFromLedger bidStub (utf8 "UserTable") [utf8 "1"]
      = (.done (bidRecord, none), afterGetRow bidStub (utf8 "UserTable") [utf8 "1"]) :=
  (UpdateLedger_then_QueryFromLedger initStub bidStub (utf8 "UserTable") [utf8 "1"] bidRecord
    (by decide) (by decide) Sound_initStub (by decide)).1 (by decide)

set_option maxRecDepth 100000 in
/-- On the ledger `initStub` with its ten tables, the value `opaque bytes` is inserted
in `UserTable` under the key `1` without error, and `QueryFromLedger` with that key does
not return it: it panics with the error of `json.Unmarshal`. And after a successful
`PostUser`, `GetUser` on the same user id panics. -/
theorem opaque_bytes_not_returned :
    (UpdateLedger initStub (utf8 "UserTable") [utf8 "1"] (utf8 "opaque bytes")).1 = .done none ∧
    (QueryFromLedger
      (UpdateLedger initStub (utf8 "UserTable") [utf8 "1"] (utf8 "opaque bytes")).2
      (utf8 "UserTable") [utf8 "1"]).1 = .panic (.error .jsonSyntax) ∧
    (PostUser initStub (utf8 "PostUser") ashleyArgs).1 = .done (Marshal ashley, none) ∧
    (GetUser (PostUser initStub (utf8 "PostUser") ashleyArgs).2 (utf8 "GetUser")
      [utf8 "100"]).1 = .panic .typeAssertion := by
  decide

/-! ## The tables of the ledger stay as `InitLedger` made them -/

theorem insertRowInternal_tables (stub : Stub) (T : GoString) (row : Row) (update : Bool) :
    (stub.insertRowInternal T row update).2.2.tables = stub.tables := by
  unfold Stub.insertRowInternal
  cases stub.getTable T with
  | error e => rfl
  | ok defs =>
    simp only []
    cases getKeyAndVerifyRow T defs row with
    | error e => rfl
    | ok key =>
      simp only []
      cases buildKeyString T key with
      | error e => rfl
      | ok k =>
        simp only []
        split <;> rfl

theorem UpdateLedger_tables (stub : Stub) (T : GoString) (K : List GoString) (V : GoString) :
    (UpdateLedger stub T K V).2.tables = stub.tables := by
  simp only [UpdateLedger]
  cases columnsLoop K (GetNumberOfKeys T) 0 [] with
  | panic p => rfl
  | done columns =>
    simp only [Stub.InsertRow]
    have ht := insertRowInternal_tables
      { stub with calls := stub.calls ++ [.InsertRow T ⟨columns ++ [.Bytes V]⟩] } T
      ⟨columns ++ [.Bytes V]⟩ false
    generalize Stub.insertRowInternal
      { stub with calls := stub.calls ++ [.InsertRow T ⟨columns ++ [.Bytes V]⟩] } T
      ⟨columns ++ [.Bytes V]⟩ false = r at ht
    obtain ⟨ok, e, s1⟩ := r
    simp only at ht
    cases e with
    | some e => cases ok <;> exact ht
    | none =>
      cases ok with
      | true => exact ht
      | false =>
        simp only []
        cases index K 0 <;> exact ht

theorem ReplaceRowFromLedger_tables (stub : Stub) (T : GoString) (K : List GoString)
    (V : GoString) : (ReplaceRowFromLedger stub T K V).2.tables = stub.tables := by
  simp only [ReplaceRowFromLedger]
  cases columnsLoop K (GetNumberOfKeys T) 0 [] with
  | panic p => rfl
  | done columns =>
    simp only [Stub.ReplaceRow]
    have ht := insertRowInternal_tables
      { stub with calls := stub.calls ++ [.ReplaceRow T ⟨columns ++ [.Bytes V]⟩] } T
      ⟨columns ++ [.Bytes V]⟩ true
    generalize Stub.insertRowInternal
      { stub with calls := stub.calls ++ [.ReplaceRow T ⟨columns ++ [.Bytes V]⟩] } T
      ⟨columns ++ [.Bytes V]⟩ true = r at ht
    obtain ⟨ok, e, s1⟩ := r
    simp only at ht
    cases e with
    | some e => cases ok <;> exact ht
    | none =>
      cases ok with
      | true => exact ht
      | false =>
        simp only []
        cases index K 0 <;> exact ht

theorem DeleteFromLedger_tables (stub : Stub) (T : GoString) (K : List GoString) :
    (DeleteFromLedger stub T K).2.tables = stub.tables := by
  simp only [DeleteFromLedger]
  split
  · rfl
  · cases columnsLoop K K.length 0 [] with
    | panic p => rfl
    | done columns =>
      simp only [Stub.DeleteRow]
      cases buildKeyString T columns <;> rfl

theorem QueryFromLedger_tables (stub : Stub) (T : GoString) (K : List GoString) :
    (QueryFromLedger stub T K).2.tables = stub.tables := by
  by_cases h : GetNumberOfKeys T ≤ K.length
  · rw [QueryFromLedger_stub stub T K h]
  · simp [QueryFromLedger, columnsLoop_short K (GetNumberOfKeys T) (by omega)]

theorem Sound_of_tables (stub stub1 : Stub) (h : stub1.tables = stub.tables) (hs : stub.Sound) :
    stub1.Sound := by
  intro T defs hl
  rw [h] at hl
  exact hs T defs hl

/-- The ledgers the chaincode builds are sound: the empty ledger is, and `InitLedger`,
`UpdateLedger`, `ReplaceRowFromLedger`, `DeleteFromLedger` and `QueryFromLedger` keep
it so. -/
theorem Sound_preserved (stub : Stub) (T : GoString) (K : List GoString) (V : GoString)
    (hs : stub.Sound) :
    (InitLedger stub T).2.Sound ∧ (UpdateLedger stub T K V).2.Sound ∧
    (ReplaceRowFromLedger stub T K V).2.Sound ∧ (DeleteFromLedger stub T K).2.Sound ∧
    (QueryFromLedger stub T K).2.Sound :=
  ⟨Sound_InitLedger stub T hs, Sound_of_tables _ _ (UpdateLedger_tables stub T K V) hs,
    Sound_of_tables _ _ (ReplaceRowFromLedger_tables stub T K V) hs,
    Sound_of_tables _ _ (DeleteFromLedger_tables stub T K) hs,
    Sound_of_tables _ _ (QueryFromLedger_tables stub T K) hs⟩

theorem PostUser_tables (stub : Stub) (function : GoString) (args : List GoString) :
    (PostUser stub function args).2.tables = stub.tables := by
  unfold PostUser
  rcases CreateUserObject args with ⟨user, e⟩
  cases e with
  | some e => rfl
  | none =>
    have hj : UserToJson user = (Marshal user, none) := rfl
    simp only [hj]
    cases h0 : index args 0 with
    | panic p => rfl
    | done a0 =>
      simp only []
      have t1 := UpdateLedger_tables stub (utf8 "UserTable") [a0] (Marshal user)
      rcases h1 : UpdateLedger stub (utf8 "UserTable") [a0] (Marshal user) with ⟨r1, s1⟩
      rw [h1] at t1
      simp only at t1
      cases r1 with
      | panic p => exact t1
      | done e1 =>
        cases e1 with
        | some e => exact t1
        | none =>
          simp only []
          cases h3 : index args 3 with
          | panic p => exact t1
          | done a3 =>
            simp only []
            have t2 := UpdateLedger_tables s1 (utf8 "UserCatTable") [utf8 "2017", a3, a0]
              (Marshal user)
            rcases h2 : UpdateLedger s1 (utf8 "UserCatTable") [utf8 "2017", a3, a0]
              (Marshal user) with ⟨r2, s2⟩
            rw [h2] at t2
            simp only at t2
            cases r2 with
            | panic p => exact t2.trans t1
            | done e2 => cases e2 <;> exact t2.trans t1

theorem GetUser_tables (stub : Stub) (function : GoString) (args : List GoString) :
    (GetUser stub function args).2.tables = stub.tables := by
  unfold GetUser
  have t1 := QueryFromLedger_tables stub (utf8 "UserTable") args
  rcases h1 : QueryFromLedger stub (utf8 "UserTable") args with ⟨r1, s1⟩
  rw [h1] at t1
  simp only at t1
  cases r1 with
  | panic p => exact t1
  | done v =>
    obtain ⟨d, e⟩ := v
    cases e with
    | some e =>
      simp only []
      cases index args 0 <;> exact t1
    | none =>
      simp only []
      split
      · cases index args 0 <;> exact t1
      · exact t1

theorem Invoke_tables (stub : Stub) (function : GoString) (args : List GoString) :
    (Invoke stub function args).2.tables = stub.tables := by
  unfold Invoke InvokeFunction
  by_cases hc : ChkReqType args = true
  · by_cases hf : function = utf8 "PostUser"
    · simp only [hc, hf, if_true]
      exact PostUser_tables stub _ args
    · simp only [hc, hf, if_true, if_false]
  · simp only [hc, if_false]
    cases index args 0 <;> rfl

theorem Query_tables (stub : Stub) (function : GoString) (args : List GoString) :
    (Query stub function args).2.tables = stub.tables := by
  unfold Query
  cases index args 0 with
  | panic p => rfl
  | done a =>
    simp only []
    by_cases hl : args.length < 1
    · simp only [hl, if_true]
    · unfold QueryFunction
      by_cases hf : function = utf8 "GetUser"
      · simp only [hl, hf, if_true, if_false]
        have t1 := GetUser_tables stub (utf8 "GetUser") args
        rcases h1 : GetUser stub (utf8 "GetUser") args with ⟨r1, s1⟩
        rw [h1] at t1
        simp only at t1
        cases r1 with
        | panic p => exact t1
        | done v =>
          obtain ⟨d, e⟩ := v
          cases e with
          | some e =>
            simp only []
            cases index args 0 <;> exact t1
          | none => exact t1
      · simp only [hl, hf, if_false]

/-- The handlers keep the ledger sound as well. -/
theorem Sound_handlers (stub : Stub) (function : GoString) (args : List GoString)
    (hs : stub.Sound) :
    (Invoke stub function args).2.Sound ∧ (Query stub function args).2.Sound :=
  ⟨Sound_of_tables _ _ (Invoke_tables stub function args) hs,
    Sound_of_tables _ _ (Query_tables stub function args) hs⟩

/-! ## The fuel of the JSON reader is enough -/

theorem skipSpace_length (s : GoString) : (skipSpace s).length ≤ s.length := by
  induction s with
  | nil => simp [skipSpace]
  | cons c r ih =>
    simp only [skipSpace]
    split
    · simp only [List.length_cons]; omega
    · simp

theorem stripPrefix_length (p s r : GoString) (h : stripPrefix p s = some r) :
    r.length + p.length = s.length := by
  induction p generalizing s with
  | nil => simp [stripPrefix] at h; simp [h]
  | cons a p ih =>
    cases s with
    | nil => simp [stripPrefix] at h
    | cons c s =>
      simp only [stripPrefix] at h
      split at h
      · have := ih s h
        simp only [List.length_cons]; omega
      · simp at h

theorem spanDigits_length (s : GoString) :
    (spanDigits s).1.length + (spanDigits s).2.length = s.length := by
  induction s with
  | nil => simp [spanDigits]
  | cons c r ih =>
    simp only [spanDigits]
    split
    · simp only [List.length_cons]; omega
    · simp

theorem spanDigits_snd_length (s : GoString) : (spanDigits s).2.length ≤ s.length := by
  have := spanDigits_length s
  omega

theorem scanExp_length (s r e : GoString) (b : Bool) (h : scanExp s = some (b, e, r)) :
    r.length ≤ s.length := by
  cases s with
  | nil =>
    simp only [scanExp, Option.some.injEq, Prod.mk.injEq] at h
    simp [← h.2.2]
  | cons c rest =>
    simp only [scanExp] at h
    by_cases hc : c = 0x65 ∨ c = 0x45
    · simp only [hc, if_true] at h
      split at h
      · simp at h
      · simp only [Option.some.injEq, Prod.mk.injEq] at h
        obtain ⟨-, -, rfl⟩ := h
        refine le_trans (spanDigits_snd_length _) ?_
        simp only [List.length_cons]
        split <;> simp only [List.length_cons] <;> omega
    · simp only [hc, if_false, Option.some.injEq, Prod.mk.injEq] at h
      simp [← h.2.2]

theorem scanFrac_length (s r f : GoString) (h : scanFrac s = some (f, r)) :
    r.length ≤ s.length := by
  unfold scanFrac at h
  split at h
  · rename_i rest
    simp only at h
    split at h
    · simp at h
    · simp only [Option.some.injEq] at h
      have := spanDigits_snd_length rest
      rw [h] at this
      simp only [List.length_cons]
      exact Nat.le_succ_of_le this
  · simp only [Option.some.injEq, Prod.mk.injEq] at h
    simp [← h.2]

theorem scanNumber_length (s r : GoString) (n : NumLit) (h : scanNumber s = some (n, r)) :
    r.length < s.length := by
  unfold scanNumber at h
  simp only at h
  split at h
  · simp at h
  · rename_i i r1 hip
    split at h
    · simp at h
    · rename_i f r2 hf
      split at h
      · simp at h
      · rename_i en e r3 he
        simp only [Option.some.injEq, Prod.mk.injEq] at h
        obtain ⟨-, rfl⟩ := h
        have h3 := scanExp_length _ _ _ _ he
        have h2 := scanFrac_length _ _ _ hf
        have h1 : r1.length < s.length := by
          clear h3 h2 he hf
          split at hip
          · rename_i r0 hs
            simp only [Option.some.injEq, Prod.mk.injEq] at hip
            obtain ⟨-, rfl⟩ := hip
            split at hs
            · simp only [List.length_cons]
              simp only at hs
              subst hs
              simp only [List.length_cons]
              omega
            · simp only at hs
              subst hs
              simp
          · rename_i c r0 _ hs
            split at hip
            · simp only [Option.some.injEq, Prod.mk.injEq] at hip
              obtain ⟨-, rfl⟩ := hip
              have := spanDigits_snd_length r0
              split at hs
              · simp only [List.length_cons]
                simp only at hs
                subst hs
                simp only [List.length_cons]
                omega
              · simp only at hs
                subst hs
                simp only [List.length_cons]
                omega
            · simp at hip
          · simp at hip
        omega


theorem prepend_eq_some (pre x r : GoString) (o : Option (GoString × GoString))
    (h : prepend pre o = some (x, r)) : ∃ y, o = some (y, r) := by
  cases o with
  | none => simp [prepend] at h
  | some p =>
    obtain ⟨y, r2⟩ := p
    simp only [prepend, Option.some.injEq, Prod.mk.injEq] at h
    exact ⟨y, by rw [h.2]⟩

theorem DecodeRune_size_pos (c : Nat) (rest : GoString) : 1 ≤ (DecodeRune (c :: rest)).2 := by
  simp only [DecodeRune]
  repeat' split
  all_goals simp

/-- One round of `unquoteLoop`: whatever the fuel left, it fails, or stops at the
closing quote, or goes on with a shorter input. -/
theorem unquoteLoop_step (c : Nat) (rest : GoString) :
    (∀ g, unquoteLoop (g + 1) (c :: rest) = none) ∨
    (∀ g, unquoteLoop (g + 1) (c :: rest) = some ([], rest)) ∨
    ∃ pre inp, inp.length ≤ rest.length ∧
      ∀ g, unquoteLoop (g + 1) (c :: rest) = prepend pre (unquoteLoop g inp) := by
  by_cases h22 : c = 0x22
  · subst h22
    exact Or.inr (Or.inl fun g => unquoteLoop_quote g rest)
  by_cases h5c : c = 0x5C
  · subst h5c
    cases rest with
    | nil => exact Or.inl fun g => by simp [unquoteLoop]
    | cons e rest2 =>
      have h2 : rest2.length ≤ (e :: rest2).length := by simp
      have h4 : (rest2.drop 4).length ≤ (e :: rest2).length := by
        simp only [List.length_drop, List.length_cons]; omega
      have h10 : (rest2.drop 10).length ≤ (e :: rest2).length := by
        simp only [List.length_drop, List.length_cons]; omega
      by_cases he1 : e = 0x22 ∨ e = 0x5C ∨ e = 0x2F
      · exact Or.inr (Or.inr ⟨[e], rest2, h2, fun g => by simp [unquoteLoop, he1]⟩)
      by_cases he2 : e = 0x62
      · subst he2
        exact Or.inr (Or.inr ⟨[0x08], rest2, h2, fun g => by simp [unquoteLoop]⟩)
      by_cases he3 : e = 0x66
      · subst he3
        exact Or.inr (Or.inr ⟨[0x0C], rest2, h2, fun g => by simp [unquoteLoop]⟩)
      by_cases he4 : e = 0x6E
      · subst he4
        exact Or.inr (Or.inr ⟨[0x0A], rest2, h2, fun g => by simp [unquoteLoop]⟩)
      by_cases he5 : e = 0x72
      · subst he5
        exact Or.inr (Or.inr ⟨[0x0D], rest2, h2, fun g => by simp [unquoteLoop]⟩)
      by_cases he6 : e = 0x74
      · subst he6
        exact Or.inr (Or.inr ⟨[0x09], rest2, h2, fun g => by simp [unquoteLoop]⟩)
      by_cases he7 : e = 0x75
      · subst he7
        cases hg : getu4 (0x5C :: 0x75 :: rest2) with
        | none => exact Or.inl fun g => by simp [unquoteLoop, hg]
        | some rr =>
          by_cases hs : isSurrogate rr = true
          · cases hg1 : getu4 (rest2.drop 4) with
            | none =>
              exact Or.inr (Or.inr ⟨EncodeRune RuneError, rest2.drop 4, h4, fun g => by
                simp [unquoteLoop, hg, hs, hg1]⟩)
            | some rr1 =>
              by_cases hp : utf16DecodeRune rr rr1 ≠ RuneError
              · exact Or.inr (Or.inr ⟨EncodeRune (utf16DecodeRune rr rr1), rest2.drop 10, h10,
                  fun g => by simp [unquoteLoop, hg, hs, hg1, hp]⟩)
              · exact Or.inr (Or.inr ⟨EncodeRune RuneError, rest2.drop 4, h4, fun g => by
                  simp [unquoteLoop, hg, hs, hg1, hp]⟩)
          · exact Or.inr (Or.inr ⟨EncodeRune rr, rest2.drop 4, h4, fun g => by
              simp [unquoteLoop, hg, hs]⟩)
      · exact Or.inl fun g => by
          simp only [not_or] at he1
          simp [unquoteLoop, he1, he2, he3, he4, he5, he6, he7]
  by_cases h20 : c < 0x20
  · exact Or.inl fun g => by simp [unquoteLoop, h22, h5c, h20]
  by_cases h80 : c < 0x80
  · exact Or.inr (Or.inr ⟨[c], rest, le_refl _, fun g =>
      unquoteLoop_ascii g c rest (by omega) h80 h22 h5c⟩)
  · refine Or.inr (Or.inr ⟨EncodeRune (DecodeRune (c :: rest)).1,
      (c :: rest).drop (DecodeRune (c :: rest)).2, ?_, fun g => unquoteLoop_multi g c rest h80⟩)
    have := DecodeRune_size_pos c rest
    simp only [List.length_drop, List.length_cons]
    omega

theorem unquoteLoop_length (f : Nat) (s x r : GoString) (h : unquoteLoop f s = some (x, r)) :
    r.length < s.length := by
  induction f generalizing s x with
  | zero => simp [unquoteLoop] at h
  | succ f ih =>
    cases s with
    | nil => simp [unquoteLoop] at h
    | cons c rest =>
      rcases unquoteLoop_step c rest with hn | hq | ⟨pre, inp, hle, hp⟩
      · rw [hn f] at h; simp at h
      · rw [hq f] at h
        simp only [Option.some.injEq, Prod.mk.injEq] at h
        simp [← h.2]
      · rw [hp f] at h
        obtain ⟨y, hy⟩ := prepend_eq_some _ _ _ _ h
        have := ih inp y hy
        simp only [List.length_cons]
        omega

/-- The fuel of `parseString` is enough: more fuel than the length of the input
changes nothing. -/
theorem unquoteLoop_fuel (f g : Nat) (s : GoString) (hf : s.length < f) (hg : s.length < g) :
    unquoteLoop f s = unquoteLoop g s := by
  induction f generalizing g s with
  | zero => omega
  | succ f ih =>
    obtain ⟨g, rfl⟩ : ∃ k, g = k + 1 := ⟨g - 1, by omega⟩
    cases s with
    | nil => simp [unquoteLoop]
    | cons c rest =>
      simp only [List.length_cons] at hf hg
      rcases unquoteLoop_step c rest with hn | hq | ⟨pre, inp, hle, hp⟩
      · rw [hn f, hn g]
      · rw [hq f, hq g]
      · rw [hp f, hp g, ih g inp (by omega) (by omega)]

theorem parseString_length (s x r : GoString) (h : parseString s = some (x, r)) :
    r.length < s.length := by
  unfold parseString at h
  split at h
  · have := unquoteLoop_length _ _ _ _ h
    simp only [List.length_cons]; omega
  · simp at h

theorem parseValue_object_close (g c : Nat) (rest r0 : GoString) (hc : c = 0x7B)
    (hsk : skipSpace rest = 0x7D :: r0) :
    parseValue (g + 1) (c :: rest) = some (.object [], r0) := by
  subst hc
  simp [parseValue, hsk]

theorem parseValue_object_open (g c : Nat) (rest : GoString) (hc : c = 0x7B)
    (hsk : ∀ r0, skipSpace rest ≠ 0x7D :: r0) :
    parseValue (g + 1) (c :: rest)
      = (parseMembers g (skipSpace rest)).map fun p => (.object p.1, p.2) := by
  subst hc
  simp only [parseValue, if_true]
  cases parseMembers g (skipSpace rest) with
  | none => rfl
  | some p => rfl

theorem parseValue_array_close (g c : Nat) (rest r0 : GoString) (hc : c = 0x5B)
    (hsk : skipSpace rest = 0x5D :: r0) :
    parseValue (g + 1) (c :: rest) = some (.array [], r0) := by
  subst hc
  simp [parseValue, hsk]

theorem parseValue_array_open (g c : Nat) (rest : GoString) (hc : c = 0x5B)
    (hsk : ∀ r0, skipSpace rest ≠ 0x5D :: r0) :
    parseValue (g + 1) (c :: rest)
      = (parseElements g (skipSpace rest)).map fun p => (.array p.1, p.2) := by
  subst hc
  simp only [parseValue, Nat.reduceEqDiff, if_false, if_true]
  cases parseElements g (skipSpace rest) with
  | none => rfl
  | some p => rfl

theorem parseValue_scalar (g c : Nat) (rest : GoString) (h1 : c ≠ 0x7B) (h2 : c ≠ 0x5B) :
    parseValue (g + 1) (c :: rest) = parseScalar c rest := by
  simp only [parseValue, h1, h2, if_false, parseScalar]
  split
  · cases parseString (c :: rest) with
    | none => rfl
    | some p => rfl
  · split
    · rfl
    · split
      · rfl
      · split
        · rfl
        · cases scanNumber (c :: rest) with
          | none => rfl
          | some p => rfl

theorem parseScalar_length (c : Nat) (rest r : GoString) (v : JVal)
    (h : parseScalar c rest = some (v, r)) : r.length < (c :: rest).length := by
  unfold parseScalar at h
  split at h
  · cases hp : parseString (c :: rest) with
    | none => simp [hp] at h
    | some p =>
      simp only [hp, Option.map_some', Option.some.injEq, Prod.mk.injEq] at h
      have := parseString_length _ _ _ (show parseString (c :: rest) = some (p.1, p.2) from hp)
      rw [← h.2]; exact this
  · have strip : ∀ (p : GoString) (w : JVal),
        (stripPrefix p rest).map (fun r => (w, r)) = some (v, r) →
        r.length < (c :: rest).length := by
      intro p w hs
      cases hp : stripPrefix p rest with
      | none => simp [hp] at hs
      | some r2 =>
        simp only [hp, Option.map_some', Option.some.injEq, Prod.mk.injEq] at hs
        have := stripPrefix_length _ _ _ hp
        simp only [List.length_cons]
        rw [← hs.2]; omega
    split at h
    · exact strip _ _ h
    · split at h
      · exact strip _ _ h
      · split at h
        · exact strip _ _ h
        · cases hp : scanNumber (c :: rest) with
          | none => simp [hp] at h
          | some p =>
            simp only [hp, Option.map_some', Option.some.injEq, Prod.mk.injEq] at h
            have := scanNumber_length _ _ _ (show scanNumber (c :: rest) = some (p.1, p.2) from hp)
            rw [← h.2]; exact this


theorem parseElements_last (g : Nat) (s r r2 : GoString) (v : JVal)
    (hv : parseValue g s = some (v, r)) (hsk : skipSpace r = 0x5D :: r2) :
    parseElements (g + 1) s = some ([v], r2) := by
  simp [parseElements, hv, hsk]

theorem parseElements_more (g : Nat) (s r r2 : GoString) (v : JVal)
    (hv : parseValue g s = some (v, r)) (hsk : skipSpace r = 0x2C :: r2) :
    parseElements (g + 1) s
      = (parseElements g (skipSpace r2)).map fun p => (v :: p.1, p.2) := by
  simp only [parseElements, hv, hsk]
  cases parseElements g (skipSpace r2) with
  | none => rfl
  | some p => rfl

theorem parseElements_inv (g : Nat) (s rf : GoString) (vs : List JVal)
    (h : parseElements (g + 1) s = some (vs, rf)) :
    ∃ v r, parseValue g s = some (v, r) ∧
      ((skipSpace r = 0x5D :: rf ∧ vs = [v]) ∨
       ∃ r2 vs2, skipSpace r = 0x2C :: r2 ∧ parseElements g (skipSpace r2) = some (vs2, rf) ∧
         vs = v :: vs2) := by
  cases hv : parseValue g s with
  | none => simp [parseElements, hv] at h
  | some p =>
    obtain ⟨v, r⟩ := p
    refine ⟨v, r, rfl, ?_⟩
    cases hsk : skipSpace r with
    | nil => simp [parseElements, hv, hsk] at h
    | cons d r2 =>
      by_cases hd : d = 0x5D
      · subst hd
        rw [parseElements_last g s r r2 v hv hsk] at h
        simp only [Option.some.injEq, Prod.mk.injEq] at h
        exact Or.inl ⟨by rw [h.2], h.1.symm⟩
      · by_cases hd2 : d = 0x2C
        · subst hd2
          rw [parseElements_more g s r r2 v hv hsk] at h
          cases he : parseElements g (skipSpace r2) with
          | none => simp [he] at h
          | some q =>
            obtain ⟨vs2, r3⟩ := q
            simp only [he, Option.map_some', Option.some.injEq, Prod.mk.injEq] at h
            exact Or.inr ⟨r2, vs2, rfl, by rw [← h.2]; exact he, h.1.symm⟩
        · simp [parseElements, hv, hsk, hd, hd2] at h

theorem parseMembers_last' (g : Nat) (s r r1 r2 r3 k : GoString) (v : JVal)
    (hk : parseString s = some (k, r)) (hc : skipSpace r = 0x3A :: r1)
    (hv : parseValue g (skipSpace r1) = some (v, r2)) (hsk : skipSpace r2 = 0x7D :: r3) :
    parseMembers (g + 1) s = some ([(k, v)], r3) := by
  simp [parseMembers, hk, hc, hv, hsk]

theorem parseMembers_more' (g : Nat) (s r r1 r2 r3 k : GoString) (v : JVal)
    (hk : parseString s = some (k, r)) (hc : skipSpace r = 0x3A :: r1)
    (hv : parseValue g (skipSpace r1) = some (v, r2)) (hsk : skipSpace r2 = 0x2C :: r3) :
    parseMembers (g + 1) s
      = (parseMembers g (skipSpace r3)).map fun p => ((k, v) :: p.1, p.2) := by
  simp only [parseMembers, hk, hc, hv, hsk]
  cases parseMembers g (skipSpace r3) with
  | none => rfl
  | some p => rfl

theorem parseMembers_inv (g : Nat) (s rf : GoString) (ms : List (GoString × JVal))
    (h : parseMembers (g + 1) s = some (ms, rf)) :
    ∃ k r r1 v r2, parseString s = some (k, r) ∧ skipSpace r = 0x3A :: r1 ∧
      parseValue g (skipSpace r1) = some (v, r2) ∧
      ((skipSpace r2 = 0x7D :: rf ∧ ms = [(k, v)]) ∨
       ∃ r3 ms2, skipSpace r2 = 0x2C :: r3 ∧ parseMembers g (skipSpace r3) = some (ms2, rf) ∧
         ms = (k, v) :: ms2) := by
  cases hk : parseString s with
  | none => simp [parseMembers, hk] at h
  | some p =>
    obtain ⟨k, r⟩ := p
    cases hc : skipSpace r with
    | nil => simp [parseMembers, hk, hc] at h
    | cons d r1 =>
      by_cases hd : d = 0x3A
      · subst hd
        cases hv : parseValue g (skipSpace r1) with
        | none => simp [parseMembers, hk, hc, hv] at h
        | some q =>
          obtain ⟨v, r2⟩ := q
          refine ⟨k, r, r1, v, r2, rfl, hc, hv, ?_⟩
          cases hsk : skipSpace r2 with
          | nil => simp [parseMembers, hk, hc, hv, hsk] at h
          | cons e r3 =>
            by_cases he : e = 0x7D
            · subst he
              rw [parseMembers_last' g s r r1 r2 r3 k v hk hc hv hsk] at h
              simp only [Option.some.injEq, Prod.mk.injEq] at h
              exact Or.inl ⟨by rw [h.2], h.1.symm⟩
            · by_cases he2 : e = 0x2C
              · subst he2
                rw [parseMembers_more' g s r r1 r2 r3 k v hk hc hv hsk] at h
                cases hm : parseMembers g (skipSpace r3) with
                | none => simp [hm] at h
                | some q =>
                  obtain ⟨ms2, r4⟩ := q
                  simp only [hm, Option.map_some', Option.some.injEq, Prod.mk.injEq] at h
                  exact Or.inr ⟨r3, ms2, rfl, by rw [← h.2]; exact hm, h.1.symm⟩
              · simp [parseMembers, hk, hc, hv, hsk, he, he2] at h
      · simp [parseMembers, hk, hc, hd] at h


/-- The fuel of the reader is enough: a value, a list of elements or a list of members
that is read with some fuel is read, with the same result, with every fuel not below
the number of bytes it takes. -/
theorem parse_enough (g : Nat) :
    (∀ s v r, parseValue g s = some (v, r) → Enough parseValue s v r) ∧
    (∀ s vs r, parseElements g s = some (vs, r) → Enough parseElements s vs r) ∧
    (∀ s ms r, parseMembers g s = some (ms, r) → Enough parseMembers s ms r) := by
  induction g with
  | zero =>
    refine ⟨fun s v r h => ?_, fun s vs r h => ?_, fun s ms r h => ?_⟩
    · simp [parseValue] at h
    · simp [parseElements] at h
    · simp [parseMembers] at h
  | succ g ih =>
    obtain ⟨ihV, ihE, ihM⟩ := ih
    refine ⟨fun s v r h => ?_, fun s vs r h => ?_, fun s ms r h => ?_⟩
    · cases s with
      | nil => simp [parseValue] at h
      | cons c rest =>
        have hsl := skipSpace_length rest
        by_cases hc : c = 0x7B
        · by_cases hcl : ∃ r0, skipSpace rest = 0x7D :: r0
          · obtain ⟨r0, hr0⟩ := hcl
            rw [parseValue_object_close g c rest r0 hc hr0] at h
            simp only [Option.some.injEq, Prod.mk.injEq] at h
            obtain ⟨rfl, rfl⟩ := h
            have hl : r0.length < (c :: rest).length := by
              rw [hr0] at hsl
              simp only [List.length_cons] at hsl ⊢
              omega
            refine ⟨hl, fun f hf => ?_⟩
            obtain ⟨f, rfl⟩ : ∃ k, f = k + 1 := ⟨f - 1, by omega⟩
            exact parseValue_object_close f c rest r0 hc hr0
          · have hop : ∀ r0, skipSpace rest ≠ 0x7D :: r0 := fun r0 h0 => hcl ⟨r0, h0⟩
            rw [parseValue_object_open g c rest hc hop] at h
            cases hm : parseMembers g (skipSpace rest) with
            | none => simp [hm] at h
            | some p =>
              obtain ⟨ms, r2⟩ := p
              simp only [hm, Option.map_some', Option.some.injEq, Prod.mk.injEq] at h
              obtain ⟨rfl, rfl⟩ := h
              obtain ⟨hl, hen⟩ := ihM _ _ _ hm
              refine ⟨by simp only [List.length_cons]; omega, fun f hf => ?_⟩
              simp only [List.length_cons] at hf
              obtain ⟨f, rfl⟩ : ∃ k, f = k + 1 := ⟨f - 1, by omega⟩
              rw [parseValue_object_open f c rest hc hop, hen f (by omega)]
              rfl
        by_cases hc2 : c = 0x5B
        · by_cases hcl : ∃ r0, skipSpace rest = 0x5D :: r0
          · obtain ⟨r0, hr0⟩ := hcl
            rw [parseValue_array_close g c rest r0 hc2 hr0] at h
            simp only [Option.some.injEq, Prod.mk.injEq] at h
            obtain ⟨rfl, rfl⟩ := h
            have hl : r0.length < (c :: rest).length := by
              rw [hr0] at hsl
              simp only [List.length_cons] at hsl ⊢
              omega
            refine ⟨hl, fun f hf => ?_⟩
            obtain ⟨f, rfl⟩ : ∃ k, f = k + 1 := ⟨f - 1, by omega⟩
            exact parseValue_array_close f c rest r0 hc2 hr0
          · have hop : ∀ r0, skipSpace rest ≠ 0x5D :: r0 := fun r0 h0 => hcl ⟨r0, h0⟩
            rw [parseValue_array_open g c rest hc2 hop] at h
            cases hm : parseElements g (skipSpace rest) with
            | none => simp [hm] at h
            | some p =>
              obtain ⟨vs, r2⟩ := p
              simp only [hm, Option.map_some', Option.some.injEq, Prod.mk.injEq] at h
              obtain ⟨rfl, rfl⟩ := h
              obtain ⟨hl, hen⟩ := ihE _ _ _ hm
              refine ⟨by simp only [List.length_cons]; omega, fun f hf => ?_⟩
              simp only [List.length_cons] at hf
              obtain ⟨f, rfl⟩ : ∃ k, f = k + 1 := ⟨f - 1, by omega⟩
              rw [parseValue_array_open f c rest hc2 hop, hen f (by omega)]
              rfl
        · rw [parseValue_scalar g c rest hc hc2] at h
          have hl := parseScalar_length c rest r v h
          refine ⟨hl, fun f hf => ?_⟩
          obtain ⟨f, rfl⟩ : ∃ k, f = k + 1 := ⟨f - 1, by omega⟩
          rw [parseValue_scalar f c rest hc hc2, h]
    · obtain ⟨v, r1, hv, hcase⟩ := parseElements_inv g s r vs h
      obtain ⟨hl1, hen1⟩ := ihV _ _ _ hv
      have hsl := skipSpace_length r1
      rcases hcase with ⟨hsk, rfl⟩ | ⟨r2, vs2, hsk, he, rfl⟩
      · rw [hsk] at hsl
        simp only [List.length_cons] at hsl
        refine ⟨by omega, fun f hf => ?_⟩
        obtain ⟨f, rfl⟩ : ∃ k, f = k + 1 := ⟨f - 1, by omega⟩
        exact parseElements_last f s r1 r v (hen1 f (by omega)) hsk
      · rw [hsk] at hsl
        simp only [List.length_cons] at hsl
        obtain ⟨hl2, hen2⟩ := ihE _ _ _ he
        have hsl2 := skipSpace_length r2
        refine ⟨by omega, fun f hf => ?_⟩
        obtain ⟨f, rfl⟩ : ∃ k, f = k + 1 := ⟨f - 1, by omega⟩
        rw [parseElements_more f s r1 r2 v (hen1 f (by omega)) hsk, hen2 f (by omega)]
        rfl
    · obtain ⟨k, r0, r1, v, r2, hk, hc, hv, hcase⟩ := parseMembers_inv g s r ms h
      have hkl := parseString_length _ _ _ hk
      have hs0 := skipSpace_length r0
      rw [hc] at hs0
      simp only [List.length_cons] at hs0
      have hs1 := skipSpace_length r1
      obtain ⟨hl1, hen1⟩ := ihV _ _ _ hv
      have hsl := skipSpace_length r2
      rcases hcase with ⟨hsk, rfl⟩ | ⟨r3, ms2, hsk, he, rfl⟩
      · rw [hsk] at hsl
        simp only [List.length_cons] at hsl
        refine ⟨by omega, fun f hf => ?_⟩
        obtain ⟨f, rfl⟩ : ∃ k, f = k + 1 := ⟨f - 1, by omega⟩
        exact parseMembers_last' f s r0 r1 r2 r k v hk hc (hen1 f (by omega)) hsk
      · rw [hsk] at hsl
        simp only [List.length_cons] at hsl
        obtain ⟨hl2, hen2⟩ := ihM _ _ _ he
        have hsl2 := skipSpace_length r3
        refine ⟨by omega, fun f hf => ?_⟩
        obtain ⟨f, rfl⟩ : ∃ k, f = k + 1 := ⟨f - 1, by omega⟩
        rw [parseMembers_more' f s r0 r1 r2 r3 k v hk hc (hen1 f (by omega)) hsk,
          hen2 f (by omega)]
        rfl

/-- The fuel `parseJSON` gives the reader is enough: whenever some fuel reads the whole
input as one value, `parseJSON` returns that value, so that `parseJSON data = none`
means that no fuel does. -/
theorem parseJSON_complete (g : Nat) (data r : GoString) (v : JVal)
    (h : parseValue g (skipSpace data) = some (v, r)) (hr : skipSpace r = []) :
    parseJSON data = some v := by
  obtain ⟨hl, hen⟩ := (parse_enough g).1 _ _ _ h
  have hsl := skipSpace_length data
  unfold parseJSON
  rw [hen (data.length + 1) (by omega)]
  simp [hr]

theorem drop_DecodeRune_length (b : Nat) (r : GoString) :
    ((b :: r).drop (DecodeRune (b :: r)).2).length ≤ r.length := by
  have := DecodeRune_size_pos b r
  simp only [List.length_drop, List.length_cons]
  omega

/-- The fuel of the encoder's loop is enough: any fuel not below the length of the
string gives the same text. -/
theorem encodeLoop_fuel (n m : Nat) (s : GoString) (hn : s.length ≤ n) (hm : s.length ≤ m) :
    encodeLoop n s = encodeLoop m s := by
  induction n generalizing m s with
  | zero =>
    have : s = [] := List.length_eq_zero.1 (by omega)
    subst this
    cases m <;> rfl
  | succ n ih =>
    cases s with
    | nil => cases m <;> rfl
    | cons b r =>
      obtain ⟨m, rfl⟩ : ∃ k, m = k + 1 := ⟨m - 1, by simp at hm; omega⟩
      simp only [List.length_cons] at hn hm
      have hd := drop_DecodeRune_length b r
      simp only [encodeLoop]
      rw [ih m r (by omega) (by omega), ih m _ (by omega) (by omega)]

/-- The fuel of `ValidString` is enough. -/
theorem validLoop_fuel (n m : Nat) (s : GoString) (hn : s.length ≤ n) (hm : s.length ≤ m) :
    validLoop n s = validLoop m s := by
  induction n generalizing m s with
  | zero =>
    have : s = [] := List.length_eq_zero.1 (by omega)
    subst this
    cases m <;> rfl
  | succ n ih =>
    cases s with
    | nil => cases m <;> rfl
    | cons b r =>
      obtain ⟨m, rfl⟩ : ∃ k, m = k + 1 := ⟨m - 1, by simp at hm; omega⟩
      simp only [List.length_cons] at hn hm
      have hd := drop_DecodeRune_length b r
      simp only [validLoop]
      rw [ih m r (by omega) (by omega), ih m _ (by omega) (by omega)]

/-- The fuel of `coerce` is enough. -/
theorem coerceLoop_fuel (n m : Nat) (s : GoString) (hn : s.length ≤ n) (hm : s.length ≤ m) :
    coerceLoop n s = coerceLoop m s := by
  induction n generalizing m s with
  | zero =>
    have : s = [] := List.length_eq_zero.1 (by omega)
    subst this
    cases m <;> rfl
  | succ n ih =>
    cases s with
    | nil => cases m <;> rfl
    | cons b r =>
      obtain ⟨m, rfl⟩ : ∃ k, m = k + 1 := ⟨m - 1, by simp at hm; omega⟩
      simp only [List.length_cons] at hn hm
      have hd := drop_DecodeRune_length b r
      simp only [coerceLoop]
      rw [ih m r (by omega) (by omega), ih m _ (by omega) (by omega)]

end Auction
